import Mathlib

/-!
Shallow embedding of the `htmlfill` form-filling engine and the `schema`
error-merge helpers, translated from the Python source (`htmlfill.py`,
`schema.py`).  Text is modelled as `List Char`; Python values that can
appear as form defaults / error values are modelled by the inductive
`Val`; the streaming parser is a state machine driven by tokenizer
events, each carrying a (line, column) source position exactly as
delivered by the external HTML tokenizer.
-/

namespace HtmlFill

/-- Text, modelled as a list of characters. -/
abbrev Str := List Char

/-- Conversion of Lean string literals into the `Str` model. -/
def s2l (s : String) : Str := s.data

/-- The double-quote character. -/
def quoteChar : Char := Char.ofNat 34

/-- The single-quote character. -/
def aposChar : Char := Char.ofNat 39

/-- ASCII lowercasing of a name, as Python `str.lower` on the tag and
attribute names handled by the engine. -/
def lowerStr (s : Str) : Str := s.map Char.toLower

/-- Python values that may appear as defaults, error values, attribute
values and dictionary keys in the engine: `None`, strings, integers,
sequences (lists/tuples, which the source code treats identically), and
`htmlliteral` dual-representation values carrying an html form and a
text form. -/
inductive Val where
  | vnone : Val
  | vstr (s : Str) : Val
  | vint (n : Int) : Val
  | vlist (l : List Val) : Val
  | vlit (html text : Str) : Val

open Val

mutual

/-- Boolean equality on `Val` (structural). -/
def Val.beq : Val → Val → Bool
  | vnone, vnone => true
  | vstr s, vstr t => s == t
  | vint m, vint n => m == n
  | vlist l, vlist m => Val.beqList l m
  | vlit h t, vlit h' t' => h == h' && t == t'
  | _, _ => false

/-- Boolean equality on lists of `Val`. -/
def Val.beqList : List Val → List Val → Bool
  | [], [] => true
  | x :: xs, y :: ys => Val.beq x y && Val.beqList xs ys
  | _, _ => false

end

mutual

theorem Val.eq_of_beq : ∀ {a b : Val}, Val.beq a b = true → a = b
  | vnone, vnone, _ => rfl
  | vstr s, vstr t, h => by
      simp only [Val.beq, beq_iff_eq] at h; exact h ▸ rfl
  | vint m, vint n, h => by
      simp only [Val.beq, beq_iff_eq] at h; exact h ▸ rfl
  | vlist l, vlist m, h =>
      congrArg vlist (Val.eqList_of_beqList h)
  | vlit h1 t1, vlit h2 t2, h => by
      simp only [Val.beq, Bool.and_eq_true, beq_iff_eq] at h
      rw [h.1, h.2]

theorem Val.eqList_of_beqList : ∀ {l m : List Val}, Val.beqList l m = true → l = m
  | [], [], _ => rfl
  | x :: xs, y :: ys, h => by
      simp only [Val.beqList, Bool.and_eq_true] at h
      rw [Val.eq_of_beq h.1, Val.eqList_of_beqList h.2]

end

mutual

theorem Val.beq_refl : ∀ (a : Val), Val.beq a a = true
  | vnone => rfl
  | vstr s => by simp [Val.beq]
  | vint n => by simp [Val.beq]
  | vlist l => Val.beqList_refl l
  | vlit h t => by simp [Val.beq]

theorem Val.beqList_refl : ∀ (l : List Val), Val.beqList l l = true
  | [] => rfl
  | x :: xs => by
      simp only [Val.beqList, Bool.and_eq_true]
      exact ⟨Val.beq_refl x, Val.beqList_refl xs⟩

end

instance : DecidableEq Val := fun a b =>
  if h : Val.beq a b = true then .isTrue (Val.eq_of_beq h)
  else .isFalse (fun he => h (he ▸ Val.beq_refl a))

/-- Python truthiness of a `Val` (`None`, empty strings, zero and empty
sequences are falsy; an `htmlliteral` instance is always truthy). -/
def pyTruthy : Val → Bool
  | vnone => false
  | vstr s => !s.isEmpty
  | vint n => n != 0
  | vlist l => !l.isEmpty
  | vlit _ _ => true

/-- Decimal rendering of an integer, as Python `str` on an int. -/
def intStr (n : Int) : Str := s2l (toString n)

/-- Python `repr` of a string over the printable-ASCII subset used by the
engine: the string is quoted with a single quote unless it contains one
and no double quote, and backslash, the quote character, newline,
carriage return and tab are escaped. -/
def pyReprStr (s : Str) : Str :=
  let q : Char := if s.contains aposChar && !s.contains quoteChar then quoteChar else aposChar
  let esc : Char → Str := fun c =>
    if c = '\\' then ['\\', '\\']
    else if c = q then ['\\', q]
    else if c = '\n' then ['\\', 'n']
    else if c = '\r' then ['\\', 'r']
    else if c = '\t' then ['\\', 't']
    else [c]
  q :: (s.foldr (fun c acc => esc c ++ acc) []) ++ [q]

mutual

/-- Python `str` of a `Val`: identity on strings, `"None"` for `None`,
decimal for ints, the text form for `htmlliteral` (its `__str__`), and
the bracketed element-`repr` rendering for sequences. -/
def pyStr : Val → Str
  | vnone => s2l "None"
  | vstr s => s
  | vint n => intStr n
  | vlist l => '[' :: pyReprList l ++ [']']
  | vlit _ t => t

/-- Python `repr` of a `Val` (only reachable through `str` of a
sequence). -/
def pyRepr : Val → Str
  | vnone => s2l "None"
  | vstr s => pyReprStr s
  | vint n => intStr n
  | vlist l => '[' :: pyReprList l ++ [']']
  | vlit h t => '<' :: h ++ s2l " html=" ++ pyReprStr h ++ s2l " text=" ++ pyReprStr t ++ ['>']

/-- Comma-separated `repr` of the elements of a sequence. -/
def pyReprList : List Val → Str
  | [] => []
  | [v] => pyRepr v
  | v :: rest => pyRepr v ++ s2l ", " ++ pyReprList rest

end

/-- Python string equality test between a string and an arbitrary value
(`==` on mixed types is `False` for every non-string right-hand side the
engine can meet). -/
def valEqStr (s : Str) (v : Val) : Bool :=
  match v with
  | vstr t => s = t
  | _ => false

/-- `cgi.escape(-, quote=True)` on a single character. -/
def escChar (c : Char) : Str :=
  if c = '&' then s2l "&amp;"
  else if c = '<' then s2l "&lt;"
  else if c = '>' then s2l "&gt;"
  else if c = quoteChar then s2l "&quot;"
  else [c]

/-- `cgi.escape(s, quote=True)`: replace `&`, `<`, `>` and the double
quote by their entities. -/
def cgi_escape : Str → Str
  | [] => []
  | c :: rest => escChar c ++ cgi_escape rest

/-- `html_quote` from the source: the empty string for `None`, the html
form for a value providing one, otherwise the escaped `str` form. -/
def html_quote : Val → Str
  | vnone => []
  | vlit h _ => h
  | v => cgi_escape (pyStr v)

/-- Modelled from the spec (claim C5 round-trip): standard HTML
unescaping of the four entities produced by escaping, used only to state
that re-parsing an escaped textarea body yields back the original
text.  This is the spec-side decoder, not a source function. -/
def htmlUnescape : Str → Str
  | [] => []
  | c :: rest =>
    if c = '&' then
      if rest.take 4 = ['a', 'm', 'p', ';'] then '&' :: htmlUnescape (rest.drop 4)
      else if rest.take 3 = ['l', 't', ';'] then '<' :: htmlUnescape (rest.drop 3)
      else if rest.take 3 = ['g', 't', ';'] then '>' :: htmlUnescape (rest.drop 3)
      else if rest.take 5 = ['q', 'u', 'o', 't', ';'] then
        quoteChar :: htmlUnescape (rest.drop 5)
      else c :: htmlUnescape rest
    else c :: htmlUnescape rest
termination_by l => l.length
decreasing_by all_goals (simp [List.length_drop]; try omega)

/-- Errors with which a fill aborts (Python assertion failures,
`KeyError`/`ValueError`/`TypeError`/`AttributeError`). -/
inductive PyErr where
  | nameRequiredIferror : PyErr
  | nameRequiredError : PyErr
  | optionOutsideSelect : PyErr
  | unknownInputType (t : Str) : PyErr
  | unusedDefaults (keys : List Val) : PyErr
  | unusedErrors (entries : List (Val × Val)) : PyErr
  | markerNotFound (marker : Val) (text : Str) : PyErr
  | keyError (k : Val) : PyErr
  | typeError : PyErr
  | attributeError : PyErr
deriving DecidableEq

/-- An error formatter: Python formatters may themselves raise (the
built-in `escape` formatter calls `html_quote` with a spurious second
argument and always raises a `TypeError`). -/
abbrev Formatter := Val → Except PyErr Str

/-- `default_formatter`: escape and wrap in the error span. -/
def default_formatter : Formatter := fun error =>
  .ok (s2l "<span class=\"error-message\">" ++ html_quote error ++ s2l "</span><br />\n")

/-- `none_formatter`: return the error unchanged (its string form; a
non-string would make the final join fail). -/
def none_formatter : Formatter := fun error =>
  match error with
  | vstr s => .ok s
  | _ => .error .typeError

/-- `escape_formatter`: the source calls `html_quote(error, 1)` although
`html_quote` takes one argument, so invoking this formatter raises a
`TypeError`. -/
def escape_formatter : Formatter := fun _ => .error .typeError

/-- A Python dictionary with `Val` keys and values, in insertion order
(keys are unique in any dictionary the engine receives). -/
abbrev PyDict := List (Val × Val)

/-- `d.get(k)` returning `None` when absent. -/
def dictGet? (d : PyDict) (k : Val) : Option Val :=
  (d.find? (fun kv => kv.1 = k)).map (·.2)

/-- `d.get(k, dflt)`. -/
def dictGetD (d : PyDict) (k : Val) (dflt : Val) : Val :=
  (dictGet? d k).getD dflt

/-- Membership of a key in a key list (`used_keys` / `used_errors` are
dictionaries used as sets). -/
def memKey (l : List Val) (k : Val) : Bool := l.any (fun x => x = k)

/-- `used[key] = 1` on a dictionary used as a set. -/
def addKeySet (l : List Val) (k : Val) : List Val :=
  if memKey l k then l else l ++ [k]

/-- An item of the content buffer: a literal text chunk, or a marker
tagged with a field key (the source stores markers as one-tuples, which
never compare equal to strings). -/
inductive Item where
  | txt (s : Str) : Item
  | marker (k : Val) : Item
deriving DecidableEq

/-- `get_attr`: first attribute whose lowercased name matches, else the
default. -/
def get_attr (attrs : List (Str × Val)) (name : Str) (dflt : Val) : Val :=
  match attrs.find? (fun nv => lowerStr nv.1 = name) with
  | some nv => nv.2
  | none => dflt

/-- `set_attr`: overwrite the first attribute whose lowercased name
matches, else append. -/
def set_attr : List (Str × Val) → Str → Val → List (Str × Val)
  | [], name, value => [(name, value)]
  | (a, b) :: rest, name, value =>
    if lowerStr a = name then (name, value) :: rest
    else (a, b) :: set_attr rest name value

/-- `del_attr`: delete the first attribute whose lowercased name
matches. -/
def del_attr : List (Str × Val) → Str → List (Str × Val)
  | [], _ => []
  | (a, b) :: rest, name =>
    if lowerStr a = name then rest
    else (a, b) :: del_attr rest name

/-- `add_class`: append the class name to the current `class` attribute
(string concatenation fails on a non-string current value or class). -/
def add_class (attrs : List (Str × Val)) (class_name : Val) :
    Except PyErr (List (Str × Val)) :=
  match get_attr attrs (s2l "class") (vstr []), class_name with
  | vstr current, vstr cls =>
    .ok (set_attr attrs (s2l "class") (vstr (pyStrip (current ++ ' ' :: cls))))
  | _, _ => .error .typeError
where
  /-- Python `str.strip()` (whitespace on both ends). -/
  pyStrip (s : Str) : Str :=
    let ws : Char → Bool := fun c =>
      c = ' ' || c = '\t' || c = '\n' || c = '\r' || c = Char.ofNat 11 || c = Char.ofNat 12
    (s.dropWhile ws).reverse.dropWhile ws |>.reverse

/-- `write_tag`: render a tag with its attributes, dropping every
attribute whose name starts with `form:`, quoting each value, and
keeping the self-closing slash when the source used one. -/
def write_tag (tag : Str) (attrs : List (Str × Val)) (startend : Bool) : Str :=
  let attr_text :=
    (attrs.filter (fun nv => !(s2l "form:").isPrefixOf nv.1)).foldr
      (fun nv acc => ' ' :: nv.1 ++ '=' :: quoteChar :: html_quote nv.2 ++ quoteChar :: acc) []
  let attr_text := if startend then attr_text ++ s2l " /" else attr_text
  '<' :: tag ++ attr_text ++ ['>']

/-- `insert_at_marker`: insert the text immediately before the first
occurrence of the marker, scanning forward; `ValueError` when the marker
is absent. -/
def insert_at_marker : List Item → Val → Str → Except PyErr (List Item)
  | [], marker, text => .error (.markerNotFound marker text)
  | item :: rest, marker, text =>
    if item = Item.marker marker then .ok (Item.txt text :: item :: rest)
    else (insert_at_marker rest marker text).map (item :: ·)

/-- A source position as reported by the tokenizer: 1-based line,
0-based column. -/
abbrev Pos := Nat × Nat

/-- The line with 1-based index `i` (total lookup; the tokenizer only
reports positions inside the document). -/
def lineAt (lines : List Str) (i : Nat) : Str := lines.getD (i - 1) []

/-- The chunks `write_pos` appends when copying the source span from
position `p` to position `q`: within one line, the single slice; across
lines, the remainder of the first line, a newline, every intermediate
line followed by a newline, and the head of the last line. -/
def spanChunks (lines : List Str) (p q : Pos) : List Str :=
  if q.1 = p.1 then
    [((lineAt lines q.1).drop p.2).take (q.2 - p.2)]
  else
    ((lineAt lines p.1).drop p.2) :: [('\n' : Char)] ::
      ((List.range' (p.1 + 1) (q.1 - (p.1 + 1))).flatMap
        (fun i => [lineAt lines i, [('\n' : Char)]])) ++
      [(lineAt lines q.1).take q.2]

/-- The full parser state (`FillingParser` instance attributes;
`listener` is always `None` and is omitted). -/
structure FPState where
  content : List Item
  lines : List Str
  source_pos : Pos
  defaults : PyDict
  in_textarea : Bool
  in_select : Val
  skip_next : Bool
  errors : PyDict
  in_error : Val
  skip_error : Bool
  use_all_keys : Bool
  used_keys : List Val
  used_errors : List Val
  error_class : Val
  add_attributes : List (Val × List (Str × Val))
  auto_error_formatter : Option Formatter
  error_formatters : List (Str × Formatter)

/-- `write_text`. -/
def write_text (st : FPState) (t : Str) : FPState :=
  { st with content := st.content ++ [Item.txt t] }

/-- `write_marker`. -/
def write_marker (st : FPState) (k : Val) : FPState :=
  { st with content := st.content ++ [Item.marker k] }

/-- `write_pos`: copy the source span from the cursor to the position of
the current event, unless suppressed by `in_textarea`, `skip_error` or
the one-shot `skip_next`; the cursor always advances. -/
def write_pos (st : FPState) (pos : Pos) : FPState :=
  if st.in_textarea || st.skip_error then { st with source_pos := pos }
  else if st.skip_next then { st with skip_next := false, source_pos := pos }
  else
    { st with
      content := st.content ++ (spanChunks st.lines st.source_pos pos).map Item.txt,
      source_pos := pos }

/-- `add_key`: record a consumed default key. -/
def add_key (st : FPState) (key : Val) : FPState :=
  { st with used_keys := addKeySet st.used_keys key }

/-- `handle_iferror`: require a truthy `name`, remember it, start
suppressing when no error exists for it, and suppress the directive tag
itself. -/
def handle_iferror (st : FPState) (attrs : List (Str × Val)) : Except PyErr FPState := do
  let name := get_attr attrs (s2l "name") vnone
  if !pyTruthy name then throw .nameRequiredIferror
  let st := { st with in_error := name }
  let st := if !pyTruthy (dictGetD st.errors name vnone) then { st with skip_error := true } else st
  return { st with skip_next := true }

/-- `handle_end_iferror`. -/
def handle_end_iferror (st : FPState) : FPState :=
  { st with in_error := vnone, skip_error := false, skip_next := true }

/-- `handle_error`: resolve the key from the `name` attribute or the
enclosing `form:iferror`, and when the error value is truthy format it
with the named formatter and emit it; the key is always recorded in
`used_errors` and the directive tag is always suppressed. -/
def handle_error (st : FPState) (attrs : List (Str × Val)) : Except PyErr FPState :=
  let name0 := get_attr attrs (s2l "name") vnone
  let formatter :=
    let f := get_attr attrs (s2l "format") vnone
    if pyTruthy f then f else vstr (s2l "default")
  let name := if name0 = vnone then st.in_error else name0
  if name = vnone then .error .nameRequiredError
  else
    let error := dictGetD st.errors name (vstr [])
    let written : Except PyErr FPState :=
      if pyTruthy error then
        match formatter with
        | vstr fname =>
          match st.error_formatters.find? (fun nf => nf.1 = fname) with
          | some nf => (nf.2 error).map (fun out => write_text st out)
          | none => .error (.keyError formatter)
        | _ => .error (.keyError formatter)
      else .ok st
    written.map (fun st2 =>
      { st2 with skip_next := true, used_errors := addKeySet st2.used_errors name })

/-- Application of the per-field `add_attributes` rules: a `+`-prefixed
rule appends to the current attribute value (string concatenation,
failing on non-strings), otherwise the attribute is overwritten. -/
def applyAddAttributes (st : FPState) (name : Val)
    (attrs : List (Str × Val)) : Except PyErr (List (Str × Val)) := do
  match st.add_attributes.find? (fun kv => kv.1 = name) with
  | none => return attrs
  | some kv =>
    let mut acc := attrs
    for rule in kv.2 do
      if '+' :: rule.1.drop 1 = rule.1 then
        let attr_name := rule.1.drop 1
        match get_attr acc attr_name (vstr []), rule.2 with
        | vstr cur, vstr extra => acc := set_attr acc attr_name (vstr (cur ++ extra))
        | _, _ => throw .typeError
      else
        acc := set_attr acc rule.1 rule.2
    return acc

/-- `handle_input`: dispatch on the lowercased `type` attribute
(defaulting to `text`), after writing the field marker, applying the
`add_attributes` rules and the error class. -/
def handle_input (st : FPState) (attrs : List (Str × Val)) (startend : Bool) :
    Except PyErr FPState := do
  let t ← match (let tv := get_attr attrs (s2l "type") vnone
                 if pyTruthy tv then tv else vstr (s2l "text")) with
    | vstr s => pure (lowerStr s)
    | _ => throw .attributeError
  let name := get_attr attrs (s2l "name") vnone
  let st := write_marker st name
  let value := dictGetD st.defaults name vnone
  let attrs ← applyAddAttributes st name attrs
  let attrs ←
    if pyTruthy st.error_class
        && pyTruthy (dictGetD st.errors (get_attr attrs (s2l "name") vnone) vnone) then
      add_class attrs st.error_class
    else pure attrs
  if t = s2l "text" || t = s2l "hidden" then
    let value := match value with
      | vnone => get_attr attrs (s2l "value") (vstr [])
      | v => v
    let attrs := set_attr attrs (s2l "value") value
    let st := write_text st (write_tag (s2l "input") attrs startend)
    return add_key { st with skip_next := true } name
  else if t = s2l "checkbox" then
    let checked :=
      valEqStr (pyStr value) (get_attr attrs (s2l "value") vnone)
      || (get_attr attrs (s2l "value") vnone = vnone && pyTruthy value)
      || (match value with
          | vlist l =>
            (match get_attr attrs (s2l "value") vnone with
             | vstr s => l.any (fun x => pyStr x = s)
             | _ => false)
          | _ => false)
    let attrs :=
      if checked then set_attr attrs (s2l "checked") (vstr (s2l "checked"))
      else del_attr attrs (s2l "checked")
    let st := write_text st (write_tag (s2l "input") attrs startend)
    return add_key { st with skip_next := true } name
  else if t = s2l "radio" then
    let attrs :=
      if valEqStr (pyStr value) (get_attr attrs (s2l "value") vnone) then
        set_attr attrs (s2l "checked") (vstr (s2l "checked"))
      else del_attr attrs (s2l "checked")
    let st := write_text st (write_tag (s2l "input") attrs startend)
    return add_key { st with skip_next := true } name
  else if t = s2l "file" then
    return st
  else if t = s2l "password" then
    let attrs := set_attr attrs (s2l "value")
      (if pyTruthy value then value else get_attr attrs (s2l "value") (vstr []))
    let st := write_text st (write_tag (s2l "input") attrs startend)
    return add_key { st with skip_next := true } name
  else if t = s2l "image" then
    let attrs := set_attr attrs (s2l "src")
      (if pyTruthy value then value else get_attr attrs (s2l "src") (vstr []))
    let st := write_text st (write_tag (s2l "input") attrs startend)
    return add_key { st with skip_next := true } name
  else if t = s2l "submit" || t = s2l "reset" || t = s2l "button" then
    let attrs := set_attr attrs (s2l "value")
      (if pyTruthy value then value else get_attr attrs (s2l "value") (vstr []))
    let st := write_text st (write_tag (s2l "input") attrs startend)
    return add_key { st with skip_next := true } name
  else
    throw (.unknownInputType t)

/-- `handle_textarea`: emit the rewritten open tag, the quoted default
(using the `''`-defaulted lookup), a literal close tag, and enter
`in_textarea`. -/
def handle_textarea (st : FPState) (attrs : List (Str × Val)) : Except PyErr FPState := do
  let name := get_attr attrs (s2l "name") vnone
  let st := write_marker st name
  let attrs ←
    if pyTruthy st.error_class && pyTruthy (dictGetD st.errors name vnone) then
      add_class attrs st.error_class
    else pure attrs
  let st := write_text st (write_tag (s2l "textarea") attrs false)
  let value := dictGetD st.defaults name (vstr [])
  let st := write_text st (html_quote value)
  let st := write_text st (s2l "</textarea>")
  return add_key { st with in_textarea := true } name

/-- `handle_end_textarea`. -/
def handle_end_textarea (st : FPState) : FPState :=
  { st with in_textarea := false, skip_next := true }

/-- `handle_select`. -/
def handle_select (st : FPState) (attrs : List (Str × Val)) : Except PyErr FPState := do
  let name := get_attr attrs (s2l "name") vnone
  let st := write_marker st name
  let attrs ←
    if pyTruthy st.error_class && pyTruthy (dictGetD st.errors name vnone) then
      add_class attrs st.error_class
    else pure attrs
  let st := { st with in_select := get_attr attrs (s2l "name") vnone }
  let st := write_text st (write_tag (s2l "select") attrs false)
  return add_key { st with skip_next := true } st.in_select

/-- `handle_end_select`. -/
def handle_end_select (st : FPState) : FPState :=
  { st with in_select := vnone }

/-- `handle_option`: requires an enclosing `select`; compare the
stringified default of the active select field with the option value. -/
def handle_option (st : FPState) (attrs : List (Str × Val)) : Except PyErr FPState := do
  if !pyTruthy st.in_select then throw .optionOutsideSelect
  let (st, attrs) :=
    if valEqStr (pyStr (dictGetD st.defaults st.in_select (vstr [])))
        (get_attr attrs (s2l "value") vnone) then
      (add_key st st.in_select, set_attr attrs (s2l "selected") (vstr (s2l "selected")))
    else (st, del_attr attrs (s2l "selected"))
  let st := write_text st (write_tag (s2l "option") attrs false)
  return { st with skip_next := true }

/-- A tokenizer event with its source position: a start tag (with the
self-closing flag from `handle_startendtag`), an end tag, or any of the
miscellaneous events (`data`, character/entity references, comments,
declarations, processing instructions). -/
inductive Event where
  | start (pos : Pos) (tag : Str) (attrs : List (Str × Val)) (startend : Bool) : Event
  | stop (pos : Pos) (tag : Str) : Event
  | misc (pos : Pos) : Event

/-- Position carried by an event. -/
def Event.pos : Event → Pos
  | .start p _ _ _ => p
  | .stop p _ => p
  | .misc p => p

/-- `handle_starttag`: copy the pending source span, then dispatch on
the tag name; unrecognized tags are pure passthrough. -/
def handle_starttag (st : FPState) (pos : Pos) (tag : Str)
    (attrs : List (Str × Val)) (startend : Bool) : Except PyErr FPState :=
  let st := write_pos st pos
  if tag = s2l "input" then handle_input st attrs startend
  else if tag = s2l "textarea" then handle_textarea st attrs
  else if tag = s2l "select" then handle_select st attrs
  else if tag = s2l "option" then handle_option st attrs
  else if tag = s2l "form:error" then handle_error st attrs
  else if tag = s2l "form:iferror" then handle_iferror st attrs
  else .ok st

/-- `handle_endtag`. -/
def handle_endtag (st : FPState) (pos : Pos) (tag : Str) : Except PyErr FPState :=
  let st := write_pos st pos
  if tag = s2l "textarea" then .ok (handle_end_textarea st)
  else if tag = s2l "select" then .ok (handle_end_select st)
  else if tag = s2l "form:iferror" then .ok (handle_end_iferror st)
  else .ok st

/-- Process one tokenizer event. -/
def processEvent (st : FPState) : Event → Except PyErr FPState
  | .start pos tag attrs startend => handle_starttag st pos tag attrs startend
  | .stop pos tag => handle_endtag st pos tag
  | .misc pos => .ok (write_pos st pos)

/-- Process a whole event stream. -/
def run (st : FPState) (events : List Event) : Except PyErr FPState :=
  events.foldlM processEvent st

/-- The unused errors at finalize: the error dictionary restricted to
keys not in `used_errors`. -/
def unusedErrorsOf (st : FPState) : PyDict :=
  st.errors.filter (fun kv => !memKey st.used_errors kv.1)

/-- Serialization of the buffer: concatenate the text chunks, markers
contribute nothing. -/
def serializeContent (content : List Item) : Str :=
  (content.filterMap (fun item => match item with
    | Item.txt s => some s
    | Item.marker _ => none)).flatten

/-- The auto-insertion loop of `close`: for every remaining unused
error, format it and insert it at the first marker carrying its key,
aborting on the first failure. -/
def autoInsertAll (f : Formatter) : List Item → PyDict → Except PyErr (List Item)
  | content, [] => .ok content
  | content, (k, v) :: rest => do
    let formatted ← f v
    let content' ← insert_at_marker content k formatted
    autoInsertAll f content' rest

/-- `close`: auto-insert every unused error before the first marker with
its key when an auto-formatter is configured, then apply the strict-mode
checks, then serialize the buffer. -/
def close (st : FPState) : Except PyErr Str := do
  let unused_errors := unusedErrorsOf st
  let (content, unused_errors) ←
    match st.auto_error_formatter with
    | some f =>
      (autoInsertAll f st.content unused_errors).map (fun c => (c, ([] : PyDict)))
    | none => pure (st.content, unused_errors)
  if st.use_all_keys then
    let unused := st.defaults.filter (fun kv => !memKey st.used_keys kv.1)
    if !unused.isEmpty then
      throw (.unusedDefaults (unused.map (·.1)))
    if !unused_errors.isEmpty then
      throw (.unusedErrors (unused_errors.map (fun kv => (kv.1, dictGetD st.errors kv.1 vnone))))
  return serializeContent content

/-- The parser state produced by `__init__` followed by `feed`
(`lines = data.split('\n')`, cursor at `(1, 0)`). -/
def feedState (defaults errors : PyDict) (use_all_keys : Bool) (error_class : Val)
    (add_attributes : List (Val × List (Str × Val)))
    (auto_error_formatter : Option Formatter) (data : Str) : FPState :=
  { content := []
    lines := data.splitOn '\n'
    source_pos := (1, 0)
    defaults := defaults
    in_textarea := false
    in_select := vnone
    skip_next := false
    errors := errors
    in_error := vnone
    skip_error := false
    use_all_keys := use_all_keys
    used_keys := []
    used_errors := []
    error_class := error_class
    add_attributes := add_attributes
    auto_error_formatter := auto_error_formatter
    error_formatters :=
      [(s2l "default", default_formatter), (s2l "none", none_formatter),
       (s2l "escape", escape_formatter)] }

/-- A whole fill: feed the document, process the tokenizer events, and
finalize. -/
def fill (defaults errors : PyDict) (use_all_keys : Bool) (error_class : Val)
    (add_attributes : List (Val × List (Str × Val)))
    (auto_error_formatter : Option Formatter) (data : Str)
    (events : List Event) : Except PyErr Str :=
  (run (feedState defaults errors use_all_keys error_class add_attributes
    auto_error_formatter data) events).bind close


/-- Extract the state of a successful step, with a fallback state (used
only to name concrete intermediate states in closed statements). -/
def okOr (d : FPState) : Except PyErr FPState → FPState
  | .ok s => s
  | .error _ => d


/-- Concrete fill used by the textarea witness. -/
def wC5st : FPState :=
  feedState [(Val.vstr (s2l "a"), Val.vstr (s2l "x<y"))] [] false
    (Val.vstr (s2l "error")) [] none (s2l "<textarea name=\"a\">old</textarea>")

/-- State after the textarea start tag of the witness document. -/
def wC5s1 : FPState :=
  okOr wC5st (processEvent wC5st
    (Event.start (1, 0) (s2l "textarea") [(s2l "name", Val.vstr (s2l "a"))] false))

/-- State after the body data event of the witness document. -/
def wC5s2 : FPState := okOr wC5st (run wC5s1 ([((1 : Nat), (19 : Nat))].map Event.misc))

/-- State after the textarea end tag of the witness document. -/
def wC5s3 : FPState :=
  okOr wC5st (processEvent wC5s2 (Event.stop (1, 23) (s2l "textarea")))


/-- Concrete fill used by the checkbox witness and counterexample. -/
def wC4st : FPState :=
  feedState [(Val.vstr (s2l "k"), Val.vstr (s2l "v"))] [] false (Val.vstr (s2l "error")) []
    none (s2l "<input type=\"checkbox\" name=\"k\" value=\"v\">")

/-- Attributes of the checkbox witness tag. -/
def wC4attrs : List (Str × Val) :=
  [(s2l "type", Val.vstr (s2l "checkbox")), (s2l "name", Val.vstr (s2l "k")),
   (s2l "value", Val.vstr (s2l "v"))]

/-- State after the checkbox start tag of the witness document. -/
def wC4s1 : FPState :=
  okOr wC4st (processEvent wC4st (Event.start (1, 0) (s2l "input") wC4attrs false))

/-- Concrete fill of the checkbox counterexample: the tag carries two
`checked` attributes and no default matches. -/
def wC4cst : FPState :=
  feedState [] [] false (Val.vstr (s2l "error")) [] none
    (s2l "<input type=\"checkbox\" name=\"k\" value=\"v\" checked=\"checked\" checked=\"checked\">")

/-- Attributes of the counterexample tag (two `checked`). -/
def wC4cattrs : List (Str × Val) :=
  [(s2l "type", Val.vstr (s2l "checkbox")), (s2l "name", Val.vstr (s2l "k")),
   (s2l "value", Val.vstr (s2l "v")), (s2l "checked", Val.vstr (s2l "checked")),
   (s2l "checked", Val.vstr (s2l "checked"))]

/-- State after the counterexample start tag. -/
def wC4cs1 : FPState :=
  okOr wC4cst (processEvent wC4cst (Event.start (1, 0) (s2l "input") wC4cattrs false))


/-- Concrete fill used by the password witness and counterexample: the
default for `k` is the empty string (present but falsy) and the tag
carries an existing value. -/
def wC8st : FPState :=
  feedState [(Val.vstr (s2l "k"), Val.vstr [])] [] false (Val.vstr (s2l "error")) [] none
    (s2l "<input type=\"password\" name=\"k\" value=\"secret\">")

/-- Attributes of the password witness tag. -/
def wC8attrs : List (Str × Val) :=
  [(s2l "type", Val.vstr (s2l "password")), (s2l "name", Val.vstr (s2l "k")),
   (s2l "value", Val.vstr (s2l "secret"))]

/-- State after the password start tag. -/
def wC8s1 : FPState :=
  okOr wC8st (processEvent wC8st (Event.start (1, 0) (s2l "input") wC8attrs false))


/-- Strict-mode witness state with an unused default key. -/
def wC3a : FPState :=
  feedState [(Val.vstr (s2l "u"), Val.vstr (s2l "x"))] [] true (Val.vstr (s2l "error")) []
    none (s2l "hi")

/-- Strict-mode witness state with an unused error key. -/
def wC3b : FPState :=
  feedState [] [(Val.vstr (s2l "k"), Val.vstr (s2l "bad"))] true (Val.vstr (s2l "error")) []
    none (s2l "hi")

/-- Non-strict witness state with an unused default key. -/
def wC3c : FPState :=
  feedState [(Val.vstr (s2l "u"), Val.vstr (s2l "x"))] [] false (Val.vstr (s2l "error")) []
    none (s2l "hi")


/-- Auto-formatter used by the auto-insertion witness. -/
def wC2fmt : Formatter := fun e => .ok ('[' :: pyStr e ++ [']'])

/-- Witness fill for auto-insertion: one error for `k`, no directive,
auto-formatter configured. -/
def wC2st : FPState :=
  feedState [] [(Val.vstr (s2l "k"), Val.vstr (s2l "bad"))] false (Val.vstr (s2l "error")) []
    (some wC2fmt) (s2l "<input type=\"text\" name=\"k\">")

/-- State after the text input tag of the auto-insertion witness. -/
def wC2s1 : FPState :=
  okOr wC2st (processEvent wC2st (Event.start (1, 0) (s2l "input")
    [(s2l "type", Val.vstr (s2l "text")), (s2l "name", Val.vstr (s2l "k"))] false))

/-- Buffer produced by the auto-insertion loop of the witness. -/
def wC2c' : List Item :=
  (autoInsertAll wC2fmt wC2s1.content (unusedErrorsOf wC2s1)).toOption.getD []

/-- Witness fill for iferror suppression: one error for `x`, a
single-line document with a `form:iferror` region around `X`. -/
def wC6st : FPState :=
  feedState [] [(Val.vstr (s2l "x"), Val.vstr (s2l "err"))] false Val.vnone []
    none (s2l "A<form:iferror name=\"x\">X</form:iferror>B")

/-- Event stream of the iferror witness document. -/
def wC6events : List Event :=
  Event.start (1, 1) (s2l "form:iferror") [(s2l "name", Val.vstr (s2l "x"))] false ::
    Event.misc (1, 24) :: ([] : List Event) ++
    [Event.stop (1, 25) (s2l "form:iferror"), Event.misc (1, 40)]


/-- Flattened text of the chunks written for one source span. -/
def spanText (lines : List Str) (p q : Pos) : Str := (spanChunks lines p q).flatten

/-- Every line followed by a newline. -/
def joinN (ls : List Str) : Str := ls.flatMap (fun l => l ++ ['\n'])

/-- The source text from the start of the document up to a position. -/
def upTo (lines : List Str) (q : Pos) : Str :=
  joinN (lines.take (q.1 - 1)) ++ (lineAt lines q.1).take q.2

/-- Validity of a tokenizer position: line inside the document, column
inside (or at the end of) its line. -/
def posValid (lines : List Str) (p : Pos) : Bool :=
  1 ≤ p.1 && p.1 ≤ lines.length && p.2 ≤ (lineAt lines p.1).length

/-- Document order on positions. -/
def posLE (p q : Pos) : Bool :=
  p.1 < q.1 || (p.1 = q.1 && p.2 ≤ q.2)

/-- The position chain of an event list is valid and monotone. -/
def chainOK (lines : List Str) : Pos → List Event → Bool
  | _, [] => true
  | p, e :: es => posValid lines e.pos && posLE p e.pos && chainOK lines e.pos es

/-- The event is not intercepted by any handler (pure passthrough). -/
def untouched : Event → Bool
  | .start _ tag _ _ => !(tag = s2l "input" || tag = s2l "textarea" || tag = s2l "select"
      || tag = s2l "option" || tag = s2l "form:error" || tag = s2l "form:iferror")
  | .stop _ tag => !(tag = s2l "textarea" || tag = s2l "select" || tag = s2l "form:iferror")
  | .misc _ => true

/-- Position of the last event, or the given cursor when there is
none. -/
def lastPos (p : Pos) (events : List Event) : Pos :=
  events.foldl (fun _ e => e.pos) p

/-- End-of-document position: last line, end of line. -/
def endPos (lines : List Str) : Pos := (lines.length, (lineAt lines lines.length).length)

end HtmlFill

namespace Schema

/-- Error result values handled by the `schema.py` merge helpers:
`None` padding, strings, sequences (lists/tuples are treated
identically), mappings from field name to nested results, and opaque
non-mergeable values (`Invalid` exception objects). -/
inductive SVal where
  | snone : SVal
  | sstr (s : List Char) : SVal
  | slist (l : List SVal) : SVal
  | sdict (d : List (List Char × SVal)) : SVal
  | sexc (msg : List Char) : SVal

open SVal

instance : Inhabited SVal := ⟨SVal.snone⟩

/-- `v is None` on an error result. -/
def isNone : SVal → Bool
  | snone => true
  | _ => false

/-- `d.get(k)` on an error mapping. -/
def dictFind? (d : List (List Char × SVal)) (k : List Char) : Option SVal :=
  (d.find? (fun kv => kv.1 = k)).map (·.2)

/-- `d[k] = v` on a dictionary modelled as an insertion-ordered
association list: overwrite the entry in place, else append. -/
def dictSet : List (List Char × SVal) → List Char → SVal → List (List Char × SVal)
  | [], k, v => [(k, v)]
  | (a, b) :: rest, k, v =>
    if a = k then (k, v) :: rest else (a, b) :: dictSet rest k v

mutual

/-- `merge_values`: strings concatenate with a newline separator,
sequences merge pairwise, mappings merge by key, anything else keeps the
left value. -/
def merge_values : SVal → SVal → SVal
  | sstr s1, sstr s2 => sstr (s1 ++ '\n' :: s2)
  | slist l1, slist l2 => slist (merge_lists l1 l2)
  | sdict d1, sdict d2 => sdict (merge_dicts d1 d2)
  | v1, _ => v1
termination_by v1 v2 => (sizeOf v2, 0)

/-- `merge_lists`: the shorter list is padded with `None`, then items
are combined position by position, a `None` item yielding the item of
the other side.  (The source pads first and then zips; recursing on the
two lists with the one-sided cases standing for the padded positions is
the same function.) -/
def merge_lists : List SVal → List SVal → List SVal
  | [], [] => []
  | [], y :: ys => y :: merge_lists [] ys
  | x :: xs, [] => x :: merge_lists xs []
  | x :: xs, y :: ys =>
    (if isNone x then y else if isNone y then x else merge_values x y) :: merge_lists xs ys
termination_by l1 l2 => (sizeOf l2, l1.length)

/-- `merge_dicts`: fold the entries of the second dictionary into the
first, merging values on shared keys. -/
def merge_dicts (d1 : List (List Char × SVal)) :
    List (List Char × SVal) → List (List Char × SVal)
  | [] => d1
  | (k, v) :: rest =>
    let d1' := match d1.find? (fun kv => kv.1 = k) with
      | some kv => dictSet d1 k (merge_values kv.2 v)
      | none => d1 ++ [(k, v)]
    merge_dicts d1' rest
termination_by d2 => (sizeOf d2, 0)

end

end Schema

/-! ### Properties of the error-merge rule (`schema.py`) -/

namespace Schema

open SVal

theorem dictFind?_cons (a : List Char) (b : SVal) (rest : List (List Char × SVal))
    (k : List Char) :
    dictFind? ((a, b) :: rest) k = if a = k then some b else dictFind? rest k := by
  by_cases h : a = k <;> simp [dictFind?, List.find?, h]

theorem dictFind?_dictSet_self (d : List (List Char × SVal)) (k : List Char) (v : SVal) :
    dictFind? (dictSet d k v) k = some v := by
  induction d with
  | nil => simp [dictSet, dictFind?_cons, dictFind?]
  | cons kv rest ih =>
    cases kv with
    | mk a b =>
      by_cases h : a = k
      · simp [dictSet, h, dictFind?_cons]
      · simp [dictSet, h, dictFind?_cons, ih]

theorem dictFind?_dictSet_other (d : List (List Char × SVal)) (k k' : List Char) (v : SVal)
    (h : k' ≠ k) : dictFind? (dictSet d k v) k' = dictFind? d k' := by
  induction d with
  | nil => simp [dictSet, dictFind?_cons, dictFind?, Ne.symm h]
  | cons kv rest ih =>
    cases kv with
    | mk a b =>
      by_cases ha : a = k
      · subst ha
        simp [dictSet, dictFind?_cons, Ne.symm h]
      · simp [dictSet, ha, dictFind?_cons, ih]

theorem dictFind?_append_none (d : List (List Char × SVal)) (k2 : List Char) (v2 : SVal)
    (k : List Char) (h : dictFind? d k = none) :
    dictFind? (d ++ [(k2, v2)]) k = if k2 = k then some v2 else none := by
  induction d with
  | nil => simp [dictFind?_cons, dictFind?]
  | cons kv rest ih =>
    cases kv with
    | mk a b =>
      rw [dictFind?_cons] at h
      by_cases ha : a = k
      · simp [ha] at h
      · rw [if_neg ha] at h
        rw [List.cons_append, dictFind?_cons, if_neg ha]
        exact ih h

theorem dictFind?_append_some (d : List (List Char × SVal)) (k2 : List Char) (v2 : SVal)
    (k : List Char) (a : SVal) (h : dictFind? d k = some a) :
    dictFind? (d ++ [(k2, v2)]) k = some a := by
  induction d with
  | nil => simp [dictFind?] at h
  | cons kv rest ih =>
    cases kv with
    | mk x b =>
      rw [dictFind?_cons] at h
      rw [List.cons_append, dictFind?_cons]
      by_cases hx : x = k
      · rwa [if_pos hx] at h ⊢
      · rw [if_neg hx] at h ⊢
        exact ih h

theorem dictFind?_eq_none_of_not_mem (d : List (List Char × SVal)) (k : List Char)
    (h : k ∉ d.map Prod.fst) : dictFind? d k = none := by
  induction d with
  | nil => simp [dictFind?]
  | cons kv rest ih =>
    simp only [List.map_cons, List.mem_cons] at h
    push_neg at h
    cases kv with
    | mk a b =>
      rw [dictFind?_cons, if_neg (fun he => h.1 he.symm)]
      exact ih h.2

theorem merge_dicts_nil (d1 : List (List Char × SVal)) : merge_dicts d1 [] = d1 := by
  rw [merge_dicts]

theorem merge_dicts_cons (d1 rest : List (List Char × SVal)) (k2 : List Char) (v2 : SVal) :
    merge_dicts d1 ((k2, v2) :: rest) =
      merge_dicts
        (match d1.find? (fun kv => kv.1 = k2) with
         | some kv => dictSet d1 k2 (merge_values kv.2 v2)
         | none => d1 ++ [(k2, v2)]) rest := by
  rw [merge_dicts]

/-- Key-by-key characterization of `merge_dicts`: on a shared key the
values are merged recursively, otherwise the side having the key wins. -/
theorem merge_dicts_find (d2 d1 : List (List Char × SVal))
    (h : (d2.map Prod.fst).Nodup) (k : List Char) :
    dictFind? (merge_dicts d1 d2) k =
      match dictFind? d1 k, dictFind? d2 k with
      | some a, some b => some (merge_values a b)
      | some a, none => some a
      | none, some b => some b
      | none, none => none := by
  induction d2 generalizing d1 with
  | nil =>
    rw [merge_dicts_nil]
    cases hd : dictFind? d1 k <;> simp [dictFind?, hd]
  | cons kv rest ih =>
    cases kv with
    | mk k2 v2 =>
      simp only [List.map_cons, List.nodup_cons] at h
      obtain ⟨hk2, hrest⟩ := h
      rw [merge_dicts_cons]
      by_cases hk : k2 = k
      · subst hk
        have hrestnone : dictFind? rest k2 = none :=
          dictFind?_eq_none_of_not_mem rest k2 hk2
        rw [dictFind?_cons, if_pos rfl]
        cases hfind : d1.find? (fun kv => kv.1 = k2) with
        | some kv1 =>
          have hd1 : dictFind? d1 k2 = some kv1.2 := by simp [dictFind?, hfind]
          dsimp only
          rw [ih _ hrest, dictFind?_dictSet_self, hrestnone, hd1]
        | none =>
          have hd1 : dictFind? d1 k2 = none := by simp [dictFind?, hfind]
          dsimp only
          rw [ih _ hrest, dictFind?_append_none _ _ _ _ hd1, hrestnone, hd1]
          simp
      · rw [dictFind?_cons, if_neg hk]
        cases hfind : d1.find? (fun kv => kv.1 = k2) with
        | some kv1 =>
          dsimp only
          rw [ih _ hrest, dictFind?_dictSet_other _ _ _ _ (fun he => hk he.symm)]
        | none =>
          dsimp only
          rw [ih _ hrest]
          cases hd1 : dictFind? d1 k with
          | some a => rw [dictFind?_append_some _ _ _ _ _ hd1]
          | none =>
            rw [dictFind?_append_none _ _ _ _ hd1, if_neg hk]

/-- `merge_lists` produces a list as long as the longer input (the
shorter one is padded). -/
theorem merge_lists_length (l1 l2 : List SVal) :
    (merge_lists l1 l2).length = max l1.length l2.length := by
  induction l1 generalizing l2 with
  | nil =>
    induction l2 with
    | nil => simp [merge_lists]
    | cons y ys ih => simp [merge_lists, ih]
  | cons x xs ih =>
    cases l2 with
    | nil =>
      have h2 : (merge_lists xs []).length = max xs.length 0 := ih []
      simp [merge_lists]
      simpa using h2
    | cons y ys => simp [merge_lists, ih ys]; omega

/-- Pairwise characterization of `merge_lists`: position `i` of the
result combines the `None`-padded items at position `i` of the inputs,
a `None` item yielding the other side. -/
theorem merge_lists_getD (l1 l2 : List SVal) (i : Nat) :
    (merge_lists l1 l2).getD i snone =
      (if isNone (l1.getD i snone) then l2.getD i snone
       else if isNone (l2.getD i snone) then l1.getD i snone
       else merge_values (l1.getD i snone) (l2.getD i snone)) := by
  induction l1 generalizing l2 i with
  | nil =>
    induction l2 generalizing i with
    | nil => simp [merge_lists, isNone]
    | cons y ys ih =>
      cases i with
      | zero => simp [merge_lists, isNone]
      | succ n => simpa [merge_lists] using ih n
  | cons x xs ih =>
    cases l2 with
    | nil =>
      cases i with
      | zero => cases x <;> simp [merge_lists, isNone, merge_values]
      | succ n =>
        have := ih [] n
        simpa [merge_lists] using this
    | cons y ys =>
      cases i with
      | zero => simp [merge_lists]
      | succ n => simpa [merge_lists] using ih ys n

end Schema

namespace Schema
open SVal

/-- Claim C9: the error-merge rule dispatches on type: two strings are
concatenated with the newline separator; two sequences merge pairwise
with the shorter side padded by `None` and a `None` element yielding the
other side; two mappings merge key by key, recursively merging values on
shared keys and keeping the unmatched side otherwise. -/
theorem C9_error_merge_rule :
    (∀ s1 s2 : List Char,
      merge_values (sstr s1) (sstr s2) = sstr (s1 ++ '\n' :: s2))
    ∧ (∀ l1 l2 : List SVal,
        merge_values (slist l1) (slist l2) = slist (merge_lists l1 l2)
        ∧ (merge_lists l1 l2).length = max l1.length l2.length
        ∧ ∀ i, (merge_lists l1 l2).getD i snone =
            (if isNone (l1.getD i snone) then l2.getD i snone
             else if isNone (l2.getD i snone) then l1.getD i snone
             else merge_values (l1.getD i snone) (l2.getD i snone)))
    ∧ (∀ (d1 d2 : List (List Char × SVal)), (d2.map Prod.fst).Nodup →
        merge_values (sdict d1) (sdict d2) = sdict (merge_dicts d1 d2)
        ∧ ∀ k, dictFind? (merge_dicts d1 d2) k =
            match dictFind? d1 k, dictFind? d2 k with
            | some a, some b => some (merge_values a b)
            | some a, none => some a
            | none, some b => some b
            | none, none => none) := by
  refine ⟨fun s1 s2 => by rw [merge_values], fun l1 l2 => ⟨by rw [merge_values], merge_lists_length l1 l2, merge_lists_getD l1 l2⟩, fun d1 d2 h => ⟨by rw [merge_values], fun k => merge_dicts_find d2 d1 h k⟩⟩

/-- Witness for C9 at concrete dictionaries sharing the key `a`. -/
theorem C9_error_merge_rule_witness :
    (([(HtmlFill.s2l "a", sstr (HtmlFill.s2l "y")),
       (HtmlFill.s2l "b", sstr (HtmlFill.s2l "z"))].map Prod.fst).Nodup)
    ∧ dictFind?
        (merge_dicts [(HtmlFill.s2l "a", sstr (HtmlFill.s2l "x"))]
          [(HtmlFill.s2l "a", sstr (HtmlFill.s2l "y")),
           (HtmlFill.s2l "b", sstr (HtmlFill.s2l "z"))]) (HtmlFill.s2l "a") =
        match dictFind? [(HtmlFill.s2l "a", sstr (HtmlFill.s2l "x"))] (HtmlFill.s2l "a"),
              dictFind? [(HtmlFill.s2l "a", sstr (HtmlFill.s2l "y")),
                (HtmlFill.s2l "b", sstr (HtmlFill.s2l "z"))] (HtmlFill.s2l "a") with
        | some a, some b => some (merge_values a b)
        | some a, none => some a
        | none, some b => some b
        | none, none => none :=
  ⟨by decide,
   (C9_error_merge_rule.2.2 [(HtmlFill.s2l "a", sstr (HtmlFill.s2l "x"))]
      [(HtmlFill.s2l "a", sstr (HtmlFill.s2l "y")),
       (HtmlFill.s2l "b", sstr (HtmlFill.s2l "z"))] (by decide)).2 (HtmlFill.s2l "a")⟩

end Schema

namespace HtmlFill
open Val

theorem unesc_amp (x : Str) :
    htmlUnescape ('&' :: 'a' :: 'm' :: 'p' :: ';' :: x) = '&' :: htmlUnescape x := by
  rw [htmlUnescape]; simp

theorem unesc_lt (x : Str) :
    htmlUnescape ('&' :: 'l' :: 't' :: ';' :: x) = '<' :: htmlUnescape x := by
  rw [htmlUnescape]; simp

theorem unesc_gt (x : Str) :
    htmlUnescape ('&' :: 'g' :: 't' :: ';' :: x) = '>' :: htmlUnescape x := by
  rw [htmlUnescape]; simp

theorem unesc_quot (x : Str) :
    htmlUnescape ('&' :: 'q' :: 'u' :: 'o' :: 't' :: ';' :: x) = quoteChar :: htmlUnescape x := by
  rw [htmlUnescape]; simp

theorem unesc_other (c : Char) (x : Str) (h : c ≠ '&') :
    htmlUnescape (c :: x) = c :: htmlUnescape x := by
  rw [htmlUnescape]; simp [h]

theorem htmlUnescape_cgi_escape (s : Str) : htmlUnescape (cgi_escape s) = s := by
  induction s with
  | nil => rw [cgi_escape, htmlUnescape]
  | cons c rest ih =>
    rw [cgi_escape]
    by_cases h1 : c = '&'
    · subst h1; rw [show escChar '&' = s2l "&amp;" from rfl]
      show htmlUnescape ('&' :: 'a' :: 'm' :: 'p' :: ';' :: cgi_escape rest) = _
      rw [unesc_amp, ih]
    · by_cases h2 : c = '<'
      · subst h2; show htmlUnescape ('&' :: 'l' :: 't' :: ';' :: cgi_escape rest) = _
        rw [unesc_lt, ih]
      · by_cases h3 : c = '>'
        · subst h3; show htmlUnescape ('&' :: 'g' :: 't' :: ';' :: cgi_escape rest) = _
          rw [unesc_gt, ih]
        · by_cases h4 : c = quoteChar
          · subst h4
            show htmlUnescape ('&' :: 'q' :: 'u' :: 'o' :: 't' :: ';' :: cgi_escape rest) = _
            rw [unesc_quot, ih]
          · rw [show escChar c = [c] from by simp [escChar, h1, h2, h3, h4]]
            show htmlUnescape (c :: cgi_escape rest) = _
            rw [unesc_other c _ h1, ih]
end HtmlFill

/-! ### Textarea rewriting (claim C5) -/

namespace HtmlFill
open Val

/-- While `in_textarea` is set, miscellaneous events only move the
cursor: nothing is emitted. -/
theorem run_misc_in_textarea (ps : List Pos) (st : FPState) (h : st.in_textarea = true) :
    run st (ps.map Event.misc) =
      .ok { st with source_pos := ps.foldl (fun _ q => q) st.source_pos } := by
  induction ps generalizing st with
  | nil => simp [run]; rfl
  | cons p ps ih =>
    simp only [List.map_cons, run, List.foldlM_cons, processEvent, write_pos, h,
      Bool.true_or, if_pos, Except.bind]
    have h2 := ih { st with source_pos := p } (by simpa using h)
    rw [h] at h2
    simp only [run] at h2
    convert h2 using 2

/-- Unpacking of a successful `handle_textarea`: the marker, the
rewritten open tag, the quoted default and the literal close tag are
appended, and the parser enters `in_textarea`. -/
theorem handle_textarea_spec (st : FPState) (attrs : List (Str × Val)) (st' : FPState)
    (h : handle_textarea st attrs = .ok st') :
    ∃ A, (A = attrs ∨ add_class attrs st.error_class = .ok A)
      ∧ st'.content = st.content ++
          [Item.marker (get_attr attrs (s2l "name") vnone),
           Item.txt (write_tag (s2l "textarea") A false),
           Item.txt (html_quote (dictGetD st.defaults (get_attr attrs (s2l "name") vnone) (vstr []))),
           Item.txt (s2l "</textarea>")]
      ∧ st'.in_textarea = true
      ∧ st'.lines = st.lines ∧ st'.skip_error = st.skip_error
      ∧ st'.defaults = st.defaults ∧ st'.errors = st.errors := by
  rw [handle_textarea] at h
  simp only [write_marker, write_text, add_key] at h
  split at h
  · cases hac : add_class attrs st.error_class with
    | error e => rw [hac] at h; simp [bind, Except.bind] at h
    | ok A =>
      rw [hac] at h
      simp only [bind, Except.bind, pure, Except.pure, Except.ok.injEq] at h
      refine ⟨A, Or.inr rfl, ?_⟩
      subst h
      simp
  · simp only [bind, Except.bind, pure, Except.pure, Except.ok.injEq] at h
    refine ⟨attrs, Or.inl rfl, ?_⟩
    subst h
    simp
end HtmlFill

namespace HtmlFill
open Val

/-- Claim C5: a `textarea` element is rewritten to the open tag, the
HTML-escaped default (raw html form for a dual-representation value),
and a literal close tag; the original body is discarded entirely; and
unescaping the escaped body text yields back the original default. -/
theorem C5_textarea_rewrite (st : FPState) (p : Pos) (attrs : List (Str × Val))
    (body : List Pos) (q : Pos) (st1 st2 st3 : FPState)
    (hstart : processEvent st (Event.start p (s2l "textarea") attrs false) = .ok st1)
    (hbody : run st1 (body.map Event.misc) = .ok st2)
    (hstop : processEvent st2 (Event.stop q (s2l "textarea")) = .ok st3) :
    (∃ A, st3.content = (write_pos st p).content ++
        [Item.marker (get_attr attrs (s2l "name") vnone),
         Item.txt (write_tag (s2l "textarea") A false),
         Item.txt (html_quote (dictGetD st.defaults (get_attr attrs (s2l "name") vnone) (vstr []))),
         Item.txt (s2l "</textarea>")])
    ∧ st3.in_textarea = false ∧ st3.skip_next = true
    ∧ (∀ s, htmlUnescape (html_quote (vstr s)) = s)
    ∧ (∀ h t, html_quote (vlit h t) = h) := by
  rw [processEvent, handle_starttag, if_neg (by decide), if_pos rfl] at hstart
  obtain ⟨A, hA, hcont, hta, hlines, hse, hdef, herr⟩ :=
    handle_textarea_spec _ _ _ hstart
  rw [run_misc_in_textarea body st1 hta, Except.ok.injEq] at hbody
  have h2ta : st2.in_textarea = true := by rw [← hbody]; exact hta
  have h2cont : st2.content = st1.content := by rw [← hbody]
  rw [processEvent, handle_endtag, write_pos] at hstop
  rw [h2ta] at hstop
  simp only [Bool.true_or, if_pos, if_neg (show ¬(s2l "textarea" = s2l "select") by decide),
    handle_end_textarea, Except.ok.injEq] at hstop
  subst hstop
  have hwd : (write_pos st p).defaults = st.defaults := by
    rw [write_pos]
    split <;> first | rfl | (split <;> rfl)
  refine ⟨⟨A, ?_⟩, rfl, rfl,
    fun s => by simpa [html_quote, pyStr] using htmlUnescape_cgi_escape s,
    fun h t => rfl⟩
  show st2.content = _
  rw [h2cont, hcont, hwd]
end HtmlFill

namespace HtmlFill

/-- Witness for C5 on a one-line document with default `x<y` for the
textarea field. -/
theorem C5_textarea_rewrite_witness :
    processEvent wC5st
        (Event.start (1, 0) (s2l "textarea") [(s2l "name", Val.vstr (s2l "a"))] false) =
      .ok wC5s1
    ∧ run wC5s1 ([((1 : Nat), (19 : Nat))].map Event.misc) = .ok wC5s2
    ∧ processEvent wC5s2 (Event.stop (1, 23) (s2l "textarea")) = .ok wC5s3
    ∧ wC5s3.in_textarea = false ∧ wC5s3.skip_next = true := by
  have h := C5_textarea_rewrite wC5st (1, 0) [(s2l "name", Val.vstr (s2l "a"))]
    [((1 : Nat), (19 : Nat))] (1, 23) wC5s1 wC5s2 wC5s3 rfl rfl rfl
  exact ⟨rfl, rfl, rfl, h.2.1, h.2.2.1⟩

end HtmlFill

/-! ### Error directives (claims C7, C10) -/

namespace HtmlFill
open Val

theorem write_pos_preserves (st : FPState) (p : Pos) :
    (write_pos st p).errors = st.errors ∧ (write_pos st p).defaults = st.defaults
    ∧ (write_pos st p).in_error = st.in_error
    ∧ (write_pos st p).error_formatters = st.error_formatters
    ∧ (write_pos st p).used_errors = st.used_errors
    ∧ (write_pos st p).used_keys = st.used_keys
    ∧ (write_pos st p).error_class = st.error_class
    ∧ (write_pos st p).add_attributes = st.add_attributes
    ∧ (write_pos st p).in_textarea = st.in_textarea
    ∧ (write_pos st p).skip_error = st.skip_error
    ∧ (write_pos st p).lines = st.lines := by
  rw [write_pos]
  split <;> try split
  all_goals exact ⟨rfl, rfl, rfl, rfl, rfl, rfl, rfl, rfl, rfl, rfl, rfl⟩

/-- Unpacking of a successful `handle_error`: the key resolves to `N`
(attribute or enclosing `form:iferror`), which is recorded in
`used_errors`; the directive tag is suppressed; a truthy error value is
emitted through the named formatter, a missing or falsy one emits
nothing. -/
theorem handle_error_spec (st : FPState) (attrs : List (Str × Val)) (st' : FPState)
    (N : Val)
    (hN : N = (if get_attr attrs (s2l "name") vnone = vnone then st.in_error
               else get_attr attrs (s2l "name") vnone))
    (h : handle_error st attrs = .ok st') :
    N ≠ vnone
    ∧ st'.skip_next = true
    ∧ st'.used_errors = addKeySet st.used_errors N
    ∧ (pyTruthy (dictGetD st.errors N (vstr [])) = false →
        st'.content = st.content)
    ∧ (pyTruthy (dictGetD st.errors N (vstr [])) = true →
        ∃ fname nf out,
          (if pyTruthy (get_attr attrs (s2l "format") vnone)
           then get_attr attrs (s2l "format") vnone
           else vstr (s2l "default")) = vstr fname
          ∧ st.error_formatters.find? (fun x => x.1 = fname) = some nf
          ∧ nf.2 (dictGetD st.errors N (vstr [])) = .ok out
          ∧ st'.content = st.content ++ [Item.txt out]) := by
  simp only [handle_error] at h
  rw [← hN] at h
  by_cases hnm : N = vnone
  · rw [if_pos hnm] at h
    exact absurd h (by simp)
  · rw [if_neg hnm] at h
    refine ⟨hnm, ?_⟩
    by_cases herr : pyTruthy (dictGetD st.errors N (vstr [])) = true
    · rw [if_pos herr] at h
      cases hfmtv : (if pyTruthy (get_attr attrs (s2l "format") vnone) = true
          then get_attr attrs (s2l "format") vnone else vstr (s2l "default")) with
      | vstr fname =>
        rw [hfmtv] at h
        dsimp only at h
        cases hfind : st.error_formatters.find? (fun nf => nf.1 = fname) with
        | none => rw [hfind] at h; simp [Except.map] at h
        | some nf =>
          rw [hfind] at h
          dsimp only at h
          cases hout : nf.2 (dictGetD st.errors N (vstr [])) with
          | error e => rw [hout] at h; simp [Except.map] at h
          | ok out =>
            rw [hout] at h
            simp only [Except.map, Except.ok.injEq] at h
            subst h
            exact ⟨rfl, by simp [write_text],
              fun hc => absurd herr (by simp [hc]),
              fun _ => ⟨fname, nf, out, rfl, hfind, hout, by simp [write_text]⟩⟩
      | vnone => rw [hfmtv] at h; simp [Except.map] at h
      | vint n => rw [hfmtv] at h; simp [Except.map] at h
      | vlist l => rw [hfmtv] at h; simp [Except.map] at h
      | vlit a b => rw [hfmtv] at h; simp [Except.map] at h
    · rw [if_neg herr] at h
      simp only [Except.map, Except.ok.injEq] at h
      subst h
      exact ⟨rfl, rfl, fun _ => rfl, fun hc => absurd hc herr⟩
end HtmlFill

namespace HtmlFill
open Val

theorem processEvent_form_error (st : FPState) (p : Pos) (attrs : List (Str × Val))
    (se : Bool) :
    processEvent st (Event.start p (s2l "form:error") attrs se) =
      handle_error (write_pos st p) attrs := by
  rw [processEvent, handle_starttag]
  rw [if_neg (by decide), if_neg (by decide), if_neg (by decide), if_neg (by decide),
    if_pos rfl]

theorem memKey_addKeySet_self (l : List Val) (k : Val) :
    memKey (addKeySet l k) k = true := by
  rw [addKeySet]
  split
  · assumption
  · simp [memKey, List.any_append]

theorem close_no_auto (st : FPState) (hauto : st.auto_error_formatter = none) :
    close st =
      if st.use_all_keys then
        (if !(st.defaults.filter (fun kv => !memKey st.used_keys kv.1)).isEmpty then
           .error (.unusedDefaults
             ((st.defaults.filter (fun kv => !memKey st.used_keys kv.1)).map (·.1)))
         else if !(unusedErrorsOf st).isEmpty then
           .error (.unusedErrors
             ((unusedErrorsOf st).map (fun kv => (kv.1, dictGetD st.errors kv.1 vnone))))
         else .ok (serializeContent st.content))
      else .ok (serializeContent st.content) := by
  simp only [close, hauto, bind, Except.bind, pure, Except.pure]
end HtmlFill

namespace HtmlFill
open Val

/-- Claim C7: a `form:error` directive with resolvable key: a truthy
error value is emitted through the named formatter (the `default`
formatter, which escapes and wraps in the error span, when no `format`
attribute is given); no error emits nothing; the directive tag itself is
suppressed. -/
theorem C7_form_error (st : FPState) (p : Pos) (attrs : List (Str × Val))
    (startend : Bool) (st' : FPState) (N : Val)
    (hN : N = (if get_attr attrs (s2l "name") vnone = vnone then st.in_error
               else get_attr attrs (s2l "name") vnone))
    (hproc : processEvent st (Event.start p (s2l "form:error") attrs startend) = .ok st') :
    st'.skip_next = true
    ∧ (pyTruthy (dictGetD st.errors N (vstr [])) = false →
        st'.content = (write_pos st p).content)
    ∧ (pyTruthy (dictGetD st.errors N (vstr [])) = true →
        ∃ fname nf out,
          (if pyTruthy (get_attr attrs (s2l "format") vnone)
           then get_attr attrs (s2l "format") vnone
           else vstr (s2l "default")) = vstr fname
          ∧ st.error_formatters.find? (fun x => x.1 = fname) = some nf
          ∧ nf.2 (dictGetD st.errors N (vstr [])) = .ok out
          ∧ st'.content = (write_pos st p).content ++ [Item.txt out])
    ∧ (∀ e, default_formatter e =
        .ok (s2l "<span class=\"error-message\">" ++ html_quote e ++ s2l "</span><br />\n"))
    ∧ (∀ defaults errors uak ecl aa aef data,
        (feedState defaults errors uak ecl aa aef data).error_formatters.find?
            (fun x => x.1 = s2l "default") = some (s2l "default", default_formatter)) := by
  rw [processEvent_form_error] at hproc
  have hpres := write_pos_preserves st p
  obtain ⟨hnm, hskip, hused, hfalse, htrue⟩ :=
    handle_error_spec (write_pos st p) attrs st' N (by rw [hN, hpres.2.2.1]) hproc
  rw [hpres.1] at hfalse htrue
  rw [hpres.2.2.2.1] at htrue
  exact ⟨hskip, hfalse, htrue, fun e => rfl, fun _ _ _ _ _ _ _ => rfl⟩

/-- Claim C10: a `form:error` directive always records its resolved key
in `used_errors`, even when no (truthy) error exists for it; a key in
`used_errors` is excluded from the unused-error set, hence never
auto-inserted and never listed by the strict-mode unused-error
failure. -/
theorem C10_error_key_consumed (st : FPState) (p : Pos) (attrs : List (Str × Val))
    (startend : Bool) (st' : FPState) (N : Val)
    (hN : N = (if get_attr attrs (s2l "name") vnone = vnone then st.in_error
               else get_attr attrs (s2l "name") vnone))
    (hproc : processEvent st (Event.start p (s2l "form:error") attrs startend) = .ok st') :
    memKey st'.used_errors N = true
    ∧ (∀ st2 : FPState, memKey st2.used_errors N = true →
        (unusedErrorsOf st2).find? (fun kv => kv.1 = N) = none)
    ∧ (∀ (st2 : FPState) entries, memKey st2.used_errors N = true →
        st2.auto_error_formatter = none →
        close st2 = .error (PyErr.unusedErrors entries) →
        entries.find? (fun kv => kv.1 = N) = none) := by
  rw [processEvent_form_error] at hproc
  have hpres := write_pos_preserves st p
  obtain ⟨hnm, hskip, hused, hfalse, htrue⟩ :=
    handle_error_spec (write_pos st p) attrs st' N (by rw [hN, hpres.2.2.1]) hproc
  have hexcl : ∀ st2 : FPState, memKey st2.used_errors N = true →
      (unusedErrorsOf st2).find? (fun kv => kv.1 = N) = none := by
    intro st2 hmem
    rw [List.find?_eq_none]
    intro kv hkv
    rw [unusedErrorsOf, List.mem_filter] at hkv
    intro hkN
    rw [decide_eq_true_iff] at hkN
    rw [hkN, hmem] at hkv
    simpa using hkv.2
  refine ⟨?_, hexcl, ?_⟩
  · rw [hused, hpres.2.2.2.2.1]
    exact memKey_addKeySet_self _ _
  · intro st2 entries hmem hauto hclose
    rw [close_no_auto st2 hauto] at hclose
    by_cases huak : st2.use_all_keys = true
    · rw [if_pos huak] at hclose
      by_cases hA : (!(st2.defaults.filter (fun kv => !memKey st2.used_keys kv.1)).isEmpty) = true
      · rw [if_pos hA] at hclose
        exact absurd hclose (by simp)
      · rw [if_neg hA] at hclose
        by_cases hB : (!(unusedErrorsOf st2).isEmpty) = true
        · rw [if_pos hB] at hclose
          simp only [Except.error.injEq, PyErr.unusedErrors.injEq] at hclose
          subst hclose
          rw [List.find?_eq_none]
          intro kv hkv
          rw [List.mem_map] at hkv
          obtain ⟨kv0, hkv0, hkveq⟩ := hkv
          have := hexcl st2 hmem
          rw [List.find?_eq_none] at this
          have h0 := this kv0 hkv0
          intro hc
          rw [decide_eq_true_iff] at hc
          apply h0
          rw [decide_eq_true_iff]
          rw [← hkveq] at hc
          exact hc
        · rw [if_neg hB] at hclose
          exact absurd hclose (by simp)
    · rw [if_neg huak] at hclose
      exact absurd hclose (by simp)
end HtmlFill

namespace HtmlFill
open Val

theorem C7_form_error_witness :
    processEvent
        (feedState [] [(vstr (s2l "k"), vstr (s2l "bad<"))] false (vstr (s2l "error")) []
          none (s2l "a<form:error name=\"k\" />b"))
        (Event.start (1, 1) (s2l "form:error") [(s2l "name", vstr (s2l "k"))] true) =
      .ok (okOr
        (feedState [] [(vstr (s2l "k"), vstr (s2l "bad<"))] false (vstr (s2l "error")) []
          none (s2l "a<form:error name=\"k\" />b"))
        (processEvent
          (feedState [] [(vstr (s2l "k"), vstr (s2l "bad<"))] false (vstr (s2l "error")) []
            none (s2l "a<form:error name=\"k\" />b"))
          (Event.start (1, 1) (s2l "form:error") [(s2l "name", vstr (s2l "k"))] true)))
    ∧ (okOr
        (feedState [] [(vstr (s2l "k"), vstr (s2l "bad<"))] false (vstr (s2l "error")) []
          none (s2l "a<form:error name=\"k\" />b"))
        (processEvent
          (feedState [] [(vstr (s2l "k"), vstr (s2l "bad<"))] false (vstr (s2l "error")) []
            none (s2l "a<form:error name=\"k\" />b"))
          (Event.start (1, 1) (s2l "form:error") [(s2l "name", vstr (s2l "k"))] true))).skip_next
        = true := by
  have h := C7_form_error
    (feedState [] [(vstr (s2l "k"), vstr (s2l "bad<"))] false (vstr (s2l "error")) []
      none (s2l "a<form:error name=\"k\" />b"))
    (1, 1) [(s2l "name", vstr (s2l "k"))] true _ (vstr (s2l "k")) rfl rfl
  exact ⟨rfl, h.1⟩

theorem C10_error_key_consumed_witness :
    processEvent
        (feedState [] [] false (vstr (s2l "error")) [] none (s2l "a<form:error name=\"k\" />b"))
        (Event.start (1, 1) (s2l "form:error") [(s2l "name", vstr (s2l "k"))] true) =
      .ok (okOr
        (feedState [] [] false (vstr (s2l "error")) [] none (s2l "a<form:error name=\"k\" />b"))
        (processEvent
          (feedState [] [] false (vstr (s2l "error")) [] none (s2l "a<form:error name=\"k\" />b"))
          (Event.start (1, 1) (s2l "form:error") [(s2l "name", vstr (s2l "k"))] true)))
    ∧ memKey
        (okOr
          (feedState [] [] false (vstr (s2l "error")) [] none (s2l "a<form:error name=\"k\" />b"))
          (processEvent
            (feedState [] [] false (vstr (s2l "error")) [] none
              (s2l "a<form:error name=\"k\" />b"))
            (Event.start (1, 1) (s2l "form:error") [(s2l "name", vstr (s2l "k"))] true))).used_errors
        (vstr (s2l "k")) = true := by
  have h := C10_error_key_consumed
    (feedState [] [] false (vstr (s2l "error")) [] none (s2l "a<form:error name=\"k\" />b"))
    (1, 1) [(s2l "name", vstr (s2l "k"))] true _ (vstr (s2l "k")) rfl rfl
  exact ⟨rfl, h.1⟩
end HtmlFill

namespace HtmlFill
open Val

theorem applyAddAttributes_nil (st : FPState) (name : Val) (attrs : List (Str × Val))
    (h : st.add_attributes = []) : applyAddAttributes st name attrs = .ok attrs := by
  simp [applyAddAttributes, h, pure, Except.pure]

theorem get_attr_nil (n : Str) (d : Val) : get_attr [] n d = d := rfl

theorem get_attr_cons (a : Str) (b : Val) (rest : List (Str × Val)) (n : Str) (d : Val) :
    get_attr ((a, b) :: rest) n d = if lowerStr a = n then b else get_attr rest n d := by
  by_cases h : lowerStr a = n <;> simp [get_attr, List.find?_cons, h]

theorem get_attr_set_attr_self (attrs : List (Str × Val)) (n : Str) (v : Val) (d : Val)
    (hn : lowerStr n = n) : get_attr (set_attr attrs n v) n d = v := by
  induction attrs with
  | nil => simp [set_attr, get_attr_cons, hn]
  | cons ab rest ih =>
    cases ab with
    | mk a b =>
      rw [set_attr]
      by_cases ha : lowerStr a = n
      · rw [if_pos ha, get_attr_cons, if_pos hn]
      · rw [if_neg ha, get_attr_cons, if_neg ha]
        exact ih

theorem get_attr_set_attr_other (attrs : List (Str × Val)) (n : Str) (v : Val)
    (m : Str) (d : Val) (hn : lowerStr n = n) (h : n ≠ m) :
    get_attr (set_attr attrs n v) m d = get_attr attrs m d := by
  have hnm : ¬(lowerStr n = m) := by rw [hn]; exact h
  induction attrs with
  | nil => rw [set_attr, get_attr_cons, if_neg hnm]
  | cons ab rest ih =>
    cases ab with
    | mk a b =>
      rw [set_attr]
      by_cases ha : lowerStr a = n
      · rw [if_pos ha, get_attr_cons, get_attr_cons]
        by_cases ham : lowerStr a = m
        · rw [ha] at ham; rw [hn] at hnm; exact absurd ham hnm
        · rw [if_neg ham, if_neg hnm]
      · rw [if_neg ha, get_attr_cons, get_attr_cons]
        by_cases ham : lowerStr a = m
        · rw [if_pos ham, if_pos ham]
        · rw [if_neg ham, if_neg ham]
          exact ih

theorem countP_cons_attr (a : Str) (b : Val) (rest : List (Str × Val)) (n : Str) :
    ((a, b) :: rest).countP (fun nv => lowerStr nv.1 = n) =
      rest.countP (fun nv => lowerStr nv.1 = n) + (if lowerStr a = n then 1 else 0) := by
  rw [List.countP_cons]
  by_cases h : lowerStr a = n <;> simp [h]

theorem get_attr_eq_default_of_countP_zero (attrs : List (Str × Val)) (n : Str) (d : Val)
    (h : attrs.countP (fun nv => lowerStr nv.1 = n) = 0) : get_attr attrs n d = d := by
  induction attrs with
  | nil => rfl
  | cons ab rest ih =>
    cases ab with
    | mk a b =>
      rw [countP_cons_attr] at h
      by_cases ha : lowerStr a = n
      · rw [if_pos ha] at h; omega
      · rw [get_attr_cons, if_neg ha]
        rw [if_neg ha] at h
        exact ih (by omega)

theorem countP_del_attr_zero (attrs : List (Str × Val)) (n : Str)
    (h : attrs.countP (fun nv => lowerStr nv.1 = n) ≤ 1) :
    (del_attr attrs n).countP (fun nv => lowerStr nv.1 = n) = 0 := by
  induction attrs with
  | nil => simp [del_attr]
  | cons ab rest ih =>
    cases ab with
    | mk a b =>
      rw [countP_cons_attr] at h
      rw [del_attr]
      by_cases ha : lowerStr a = n
      · rw [if_pos ha]
        rw [if_pos ha] at h
        omega
      · rw [if_neg ha]
        rw [if_neg ha] at h
        rw [countP_cons_attr, if_neg ha]
        rw [ih (by omega)]

theorem get_attr_del_attr_self (attrs : List (Str × Val)) (n : Str) (d : Val)
    (h : attrs.countP (fun nv => lowerStr nv.1 = n) ≤ 1) :
    get_attr (del_attr attrs n) n d = d :=
  get_attr_eq_default_of_countP_zero _ n d (countP_del_attr_zero attrs n h)
end HtmlFill

namespace HtmlFill
open Val

theorem countP_set_attr_other (attrs : List (Str × Val)) (n : Str) (v : Val) (m : Str)
    (hn : lowerStr n = n) (h : n ≠ m) :
    (set_attr attrs n v).countP (fun nv => lowerStr nv.1 = m) =
      attrs.countP (fun nv => lowerStr nv.1 = m) := by
  have hnm : ¬(lowerStr n = m) := by rw [hn]; exact h
  induction attrs with
  | nil => simp [set_attr, hnm]
  | cons ab rest ih =>
    cases ab with
    | mk a b =>
      rw [set_attr]
      by_cases ha : lowerStr a = n
      · rw [if_pos ha, countP_cons_attr, countP_cons_attr, if_neg hnm,
          if_neg (by rw [ha]; exact h)]
      · rw [if_neg ha, countP_cons_attr, countP_cons_attr, ih]

theorem add_class_eq (attrs : List (Str × Val)) (cls : Val) (A : List (Str × Val))
    (h : add_class attrs cls = .ok A) :
    ∃ s, A = set_attr attrs (s2l "class") (vstr s) := by
  unfold add_class at h
  split at h
  · rename_i current c heq
    simp only [Except.ok.injEq] at h
    exact ⟨_, h.symm⟩
  · exact absurd h (by simp)

theorem C4_checkbox_amended (st : FPState) (p : Pos) (attrs : List (Str × Val))
    (startend : Bool) (st' : FPState)
    (hadd : st.add_attributes = [])
    (htype : get_attr attrs (s2l "type") vnone = vstr (s2l "checkbox"))
    (hdup : attrs.countP (fun nv => lowerStr nv.1 = s2l "checked") ≤ 1)
    (hproc : processEvent st (Event.start p (s2l "input") attrs startend) = .ok st') :
    ∃ A, st'.content = (write_pos st p).content ++
        [Item.marker (get_attr attrs (s2l "name") vnone),
         Item.txt (write_tag (s2l "input") A startend)]
      ∧ ((get_attr A (s2l "checked") vnone = vstr (s2l "checked")) ↔
          (valEqStr (pyStr (dictGetD st.defaults (get_attr attrs (s2l "name") vnone) vnone))
              (get_attr attrs (s2l "value") vnone)
            || (get_attr attrs (s2l "value") vnone = vnone
                && pyTruthy (dictGetD st.defaults (get_attr attrs (s2l "name") vnone) vnone))
            || (match dictGetD st.defaults (get_attr attrs (s2l "name") vnone) vnone with
                | vlist l =>
                  (match get_attr attrs (s2l "value") vnone with
                   | vstr s => l.any (fun x => pyStr x = s)
                   | _ => false)
                | _ => false)) = true)
      ∧ (((valEqStr (pyStr (dictGetD st.defaults (get_attr attrs (s2l "name") vnone) vnone))
              (get_attr attrs (s2l "value") vnone)
            || (get_attr attrs (s2l "value") vnone = vnone
                && pyTruthy (dictGetD st.defaults (get_attr attrs (s2l "name") vnone) vnone))
            || (match dictGetD st.defaults (get_attr attrs (s2l "name") vnone) vnone with
                | vlist l =>
                  (match get_attr attrs (s2l "value") vnone with
                   | vstr s => l.any (fun x => pyStr x = s)
                   | _ => false)
                | _ => false)) = false) →
          A.countP (fun nv => lowerStr nv.1 = s2l "checked") = 0) := by
  rw [processEvent, handle_starttag, if_pos rfl] at hproc
  have hpres := write_pos_preserves st p
  rw [handle_input] at hproc
  rw [htype] at hproc
  rw [show (if pyTruthy (vstr (s2l "checkbox")) = true then vstr (s2l "checkbox")
      else vstr (s2l "text")) = vstr (s2l "checkbox") from by decide] at hproc
  dsimp only at hproc
  rw [show lowerStr (s2l "checkbox") = s2l "checkbox" from by decide] at hproc
  simp only [bind, Except.bind, pure, Except.pure] at hproc
  rw [applyAddAttributes_nil _ _ _
    (by simp [write_marker, hpres.2.2.2.2.2.2.2.1, hadd])] at hproc
  dsimp only at hproc
  simp only [write_marker, write_text, add_key] at hproc
  simp only [hpres.1, hpres.2.1, hpres.2.2.2.2.2.2.1] at hproc
  by_cases hec : (pyTruthy st.error_class
      && pyTruthy (dictGetD st.errors (get_attr attrs (s2l "name") vnone) vnone)) = true
  · rw [if_pos hec] at hproc
    cases hAC : add_class attrs st.error_class with
    | error e => rw [hAC] at hproc; simp at hproc
    | ok attrs1 =>
      rw [hAC] at hproc
      dsimp only at hproc
      obtain ⟨cs, hs⟩ := add_class_eq attrs st.error_class attrs1 hAC
      have hv : get_attr attrs1 (s2l "value") vnone = get_attr attrs (s2l "value") vnone := by
        rw [hs]; exact get_attr_set_attr_other _ _ _ _ _ (by decide) (by decide)
      have hcnt : attrs1.countP (fun nv => lowerStr nv.1 = s2l "checked") ≤ 1 := by
        rw [hs, countP_set_attr_other _ _ _ _ (by decide) (by decide)]; exact hdup
      rw [if_neg (by decide), if_pos trivial] at hproc
      simp only [Except.ok.injEq] at hproc
      subst hproc
      refine ⟨(if (valEqStr (pyStr (dictGetD st.defaults (get_attr attrs (s2l "name") vnone) vnone))
              (get_attr attrs1 (s2l "value") vnone)
            || (get_attr attrs1 (s2l "value") vnone = vnone
                && pyTruthy (dictGetD st.defaults (get_attr attrs (s2l "name") vnone) vnone))
            || (match dictGetD st.defaults (get_attr attrs (s2l "name") vnone) vnone with
                | vlist l =>
                  (match get_attr attrs1 (s2l "value") vnone with
                   | vstr s => l.any (fun x => pyStr x = s)
                   | _ => false)
                | _ => false)) = true
          then set_attr attrs1 (s2l "checked") (vstr (s2l "checked"))
          else del_attr attrs1 (s2l "checked")), by simp, ?_, ?_⟩
      · rw [hv]
        by_cases hb : (valEqStr (pyStr (dictGetD st.defaults (get_attr attrs (s2l "name") vnone) vnone))
              (get_attr attrs (s2l "value") vnone)
            || (get_attr attrs (s2l "value") vnone = vnone
                && pyTruthy (dictGetD st.defaults (get_attr attrs (s2l "name") vnone) vnone))
            || (match dictGetD st.defaults (get_attr attrs (s2l "name") vnone) vnone with
                | vlist l =>
                  (match get_attr attrs (s2l "value") vnone with
                   | vstr s => l.any (fun x => pyStr x = s)
                   | _ => false)
                | _ => false)) = true
        · rw [if_pos hb]
          rw [get_attr_set_attr_self _ _ _ _ (by decide)]
          simp [hb]
        · rw [if_neg hb]
          rw [get_attr_del_attr_self _ _ _ hcnt]
          simp only [Bool.not_eq_true] at hb
          rw [hb]
          simp
      · intro hb
        rw [hv, hb]
        rw [if_neg (by simp)]
        exact countP_del_attr_zero _ _ hcnt
  · rw [if_neg hec] at hproc
    have hv : get_attr attrs (s2l "value") vnone = get_attr attrs (s2l "value") vnone := rfl
    have hcnt : attrs.countP (fun nv => lowerStr nv.1 = s2l "checked") ≤ 1 := hdup
    rw [if_neg (by decide), if_pos trivial] at hproc
    simp only [Except.ok.injEq] at hproc
    subst hproc
    refine ⟨(if (valEqStr (pyStr (dictGetD st.defaults (get_attr attrs (s2l "name") vnone) vnone))
            (get_attr attrs (s2l "value") vnone)
          || (get_attr attrs (s2l "value") vnone = vnone
              && pyTruthy (dictGetD st.defaults (get_attr attrs (s2l "name") vnone) vnone))
          || (match dictGetD st.defaults (get_attr attrs (s2l "name") vnone) vnone with
              | vlist l =>
                (match get_attr attrs (s2l "value") vnone with
                 | vstr s => l.any (fun x => pyStr x = s)
                 | _ => false)
              | _ => false)) = true
        then set_attr attrs (s2l "checked") (vstr (s2l "checked"))
        else del_attr attrs (s2l "checked")), by simp, ?_, ?_⟩
    · rw [hv]
      by_cases hb : (valEqStr (pyStr (dictGetD st.defaults (get_attr attrs (s2l "name") vnone) vnone))
            (get_attr attrs (s2l "value") vnone)
          || (get_attr attrs (s2l "value") vnone = vnone
              && pyTruthy (dictGetD st.defaults (get_attr attrs (s2l "name") vnone) vnone))
          || (match dictGetD st.defaults (get_attr attrs (s2l "name") vnone) vnone with
              | vlist l =>
                (match get_attr attrs (s2l "value") vnone with
                 | vstr s => l.any (fun x => pyStr x = s)
                 | _ => false)
              | _ => false)) = true
      · rw [if_pos hb]
        rw [get_attr_set_attr_self _ _ _ _ (by decide)]
        simp [hb]
      · rw [if_neg hb]
        rw [get_attr_del_attr_self _ _ _ hcnt]
        simp only [Bool.not_eq_true] at hb
        rw [hb]
        simp
    · intro hb
      rw [hv, hb]
      rw [if_neg (by simp)]
      exact countP_del_attr_zero _ _ hcnt

end HtmlFill

namespace HtmlFill
open Val

/-- Witness for the amended C4 at a matching default. -/
theorem C4_checkbox_amended_witness :
    wC4attrs.countP (fun nv => lowerStr nv.1 = s2l "checked") ≤ 1
    ∧ (∃ A, wC4s1.content = (write_pos wC4st (1, 0)).content ++
          [Item.marker (get_attr wC4attrs (s2l "name") vnone),
           Item.txt (write_tag (s2l "input") A false)]
        ∧ ((get_attr A (s2l "checked") vnone = vstr (s2l "checked")) ↔
            (valEqStr (pyStr (dictGetD wC4st.defaults (get_attr wC4attrs (s2l "name") vnone) vnone))
                (get_attr wC4attrs (s2l "value") vnone)
              || (get_attr wC4attrs (s2l "value") vnone = vnone
                  && pyTruthy (dictGetD wC4st.defaults (get_attr wC4attrs (s2l "name") vnone) vnone))
              || (match dictGetD wC4st.defaults (get_attr wC4attrs (s2l "name") vnone) vnone with
                  | vlist l =>
                    (match get_attr wC4attrs (s2l "value") vnone with
                     | vstr s => l.any (fun x => pyStr x = s)
                     | _ => false)
                  | _ => false)) = true)
        ∧ (((valEqStr (pyStr (dictGetD wC4st.defaults (get_attr wC4attrs (s2l "name") vnone) vnone))
                (get_attr wC4attrs (s2l "value") vnone)
              || (get_attr wC4attrs (s2l "value") vnone = vnone
                  && pyTruthy (dictGetD wC4st.defaults (get_attr wC4attrs (s2l "name") vnone) vnone))
              || (match dictGetD wC4st.defaults (get_attr wC4attrs (s2l "name") vnone) vnone with
                  | vlist l =>
                    (match get_attr wC4attrs (s2l "value") vnone with
                     | vstr s => l.any (fun x => pyStr x = s)
                     | _ => false)
                  | _ => false)) = false) →
            A.countP (fun nv => lowerStr nv.1 = s2l "checked") = 0)) :=
  ⟨by decide, C4_checkbox_amended wC4st (1, 0) wC4attrs false wC4s1 rfl rfl (by decide) rfl⟩

/-- Counterexample to C4 as stated: with two `checked` attributes and no
matching default, the emitted tag still carries `checked="checked"`
although the checked condition is false. -/
theorem C4_checkbox_counterexample :
    processEvent wC4cst (Event.start (1, 0) (s2l "input") wC4cattrs false) = .ok wC4cs1
    ∧ serializeContent wC4cs1.content =
        s2l "<input type=\"checkbox\" name=\"k\" value=\"v\" checked=\"checked\">"
    ∧ (valEqStr (pyStr (dictGetD wC4cst.defaults (get_attr wC4cattrs (s2l "name") vnone) vnone))
          (get_attr wC4cattrs (s2l "value") vnone)
        || (get_attr wC4cattrs (s2l "value") vnone = vnone
            && pyTruthy (dictGetD wC4cst.defaults (get_attr wC4cattrs (s2l "name") vnone) vnone))
        || (match dictGetD wC4cst.defaults (get_attr wC4cattrs (s2l "name") vnone) vnone with
            | vlist l =>
              (match get_attr wC4cattrs (s2l "value") vnone with
               | vstr s => l.any (fun x => pyStr x = s)
               | _ => false)
            | _ => false)) = false := by
  exact ⟨rfl, rfl, by decide⟩
end HtmlFill

namespace HtmlFill
open Val

theorem handle_input_password_fallback (st : FPState) (p : Pos) (attrs : List (Str × Val))
    (startend : Bool) (st' : FPState)
    (hadd : st.add_attributes = [])
    (htype : get_attr attrs (s2l "type") vnone = vstr (s2l "password"))
    (hproc : processEvent st (Event.start p (s2l "input") attrs startend) = .ok st') :
    ∃ A, st'.content = (write_pos st p).content ++
        [Item.marker (get_attr attrs (s2l "name") vnone),
         Item.txt (write_tag (s2l "input") A startend)]
      ∧ get_attr A (s2l "value") vnone =
          (if pyTruthy (dictGetD st.defaults (get_attr attrs (s2l "name") vnone) vnone) = true
           then dictGetD st.defaults (get_attr attrs (s2l "name") vnone) vnone
           else get_attr attrs (s2l "value") (vstr [])) := by
  rw [processEvent, handle_starttag, if_pos rfl] at hproc
  have hpres := write_pos_preserves st p
  rw [handle_input] at hproc
  rw [htype] at hproc
  rw [show (if pyTruthy (vstr (s2l "password")) = true then vstr (s2l "password")
      else vstr (s2l "text")) = vstr (s2l "password") from by decide] at hproc
  dsimp only at hproc
  rw [show lowerStr (s2l "password") = s2l "password" from by decide] at hproc
  simp only [bind, Except.bind, pure, Except.pure] at hproc
  rw [applyAddAttributes_nil _ _ _
    (by simp [write_marker, hpres.2.2.2.2.2.2.2.1, hadd])] at hproc
  dsimp only at hproc
  simp only [write_marker, write_text, add_key] at hproc
  simp only [hpres.1, hpres.2.1, hpres.2.2.2.2.2.2.1] at hproc
  by_cases hec : (pyTruthy st.error_class
      && pyTruthy (dictGetD st.errors (get_attr attrs (s2l "name") vnone) vnone)) = true
  · rw [if_pos hec] at hproc
    cases hAC : add_class attrs st.error_class with
    | error e => rw [hAC] at hproc; simp at hproc
    | ok attrs1 =>
      rw [hAC] at hproc
      dsimp only at hproc
      obtain ⟨cs, hs⟩ := add_class_eq attrs st.error_class attrs1 hAC
      have hv : get_attr attrs1 (s2l "value") (vstr []) = get_attr attrs (s2l "value") (vstr []) := by
        rw [hs]; exact get_attr_set_attr_other _ _ _ _ _ (by decide) (by decide)
      rw [if_neg (show ¬((decide (s2l "password" = s2l "text") || decide (s2l "password" = s2l "hidden")) = true) from by decide)] at hproc
      rw [if_neg (show ¬(s2l "password" = s2l "checkbox") from by decide)] at hproc
      rw [if_neg (show ¬(s2l "password" = s2l "radio") from by decide)] at hproc
      rw [if_neg (show ¬(s2l "password" = s2l "file") from by decide)] at hproc
      rw [if_pos trivial] at hproc
      simp only [Except.ok.injEq] at hproc
      subst hproc
      refine ⟨set_attr attrs1 (s2l "value")
          (if pyTruthy (dictGetD st.defaults (get_attr attrs (s2l "name") vnone) vnone) = true
           then dictGetD st.defaults (get_attr attrs (s2l "name") vnone) vnone
           else get_attr attrs1 (s2l "value") (vstr [])), by simp, ?_⟩
      rw [get_attr_set_attr_self _ _ _ _ (by decide)]
      try rw [hv]
  · rw [if_neg hec] at hproc
    have hv : get_attr attrs (s2l "value") (vstr []) = get_attr attrs (s2l "value") (vstr []) := rfl
    rw [if_neg (show ¬((decide (s2l "password" = s2l "text") || decide (s2l "password" = s2l "hidden")) = true) from by decide)] at hproc
    rw [if_neg (show ¬(s2l "password" = s2l "checkbox") from by decide)] at hproc
    rw [if_neg (show ¬(s2l "password" = s2l "radio") from by decide)] at hproc
    rw [if_neg (show ¬(s2l "password" = s2l "file") from by decide)] at hproc
    rw [if_pos trivial] at hproc
    simp only [Except.ok.injEq] at hproc
    subst hproc
    refine ⟨set_attr attrs (s2l "value")
        (if pyTruthy (dictGetD st.defaults (get_attr attrs (s2l "name") vnone) vnone) = true
         then dictGetD st.defaults (get_attr attrs (s2l "name") vnone) vnone
         else get_attr attrs (s2l "value") (vstr [])), by simp, ?_⟩
    rw [get_attr_set_attr_self _ _ _ _ (by decide)]
    try rw [hv]

theorem handle_input_submit_fallback (st : FPState) (p : Pos) (attrs : List (Str × Val))
    (startend : Bool) (st' : FPState)
    (hadd : st.add_attributes = [])
    (htype : get_attr attrs (s2l "type") vnone = vstr (s2l "submit"))
    (hproc : processEvent st (Event.start p (s2l "input") attrs startend) = .ok st') :
    ∃ A, st'.content = (write_pos st p).content ++
        [Item.marker (get_attr attrs (s2l "name") vnone),
         Item.txt (write_tag (s2l "input") A startend)]
      ∧ get_attr A (s2l "value") vnone =
          (if pyTruthy (dictGetD st.defaults (get_attr attrs (s2l "name") vnone) vnone) = true
           then dictGetD st.defaults (get_attr attrs (s2l "name") vnone) vnone
           else get_attr attrs (s2l "value") (vstr [])) := by
  rw [processEvent, handle_starttag, if_pos rfl] at hproc
  have hpres := write_pos_preserves st p
  rw [handle_input] at hproc
  rw [htype] at hproc
  rw [show (if pyTruthy (vstr (s2l "submit")) = true then vstr (s2l "submit")
      else vstr (s2l "text")) = vstr (s2l "submit") from by decide] at hproc
  dsimp only at hproc
  rw [show lowerStr (s2l "submit") = s2l "submit" from by decide] at hproc
  simp only [bind, Except.bind, pure, Except.pure] at hproc
  rw [applyAddAttributes_nil _ _ _
    (by simp [write_marker, hpres.2.2.2.2.2.2.2.1, hadd])] at hproc
  dsimp only at hproc
  simp only [write_marker, write_text, add_key] at hproc
  simp only [hpres.1, hpres.2.1, hpres.2.2.2.2.2.2.1] at hproc
  by_cases hec : (pyTruthy st.error_class
      && pyTruthy (dictGetD st.errors (get_attr attrs (s2l "name") vnone) vnone)) = true
  · rw [if_pos hec] at hproc
    cases hAC : add_class attrs st.error_class with
    | error e => rw [hAC] at hproc; simp at hproc
    | ok attrs1 =>
      rw [hAC] at hproc
      dsimp only at hproc
      obtain ⟨cs, hs⟩ := add_class_eq attrs st.error_class attrs1 hAC
      have hv : get_attr attrs1 (s2l "value") (vstr []) = get_attr attrs (s2l "value") (vstr []) := by
        rw [hs]; exact get_attr_set_attr_other _ _ _ _ _ (by decide) (by decide)
      rw [if_neg (show ¬((decide (s2l "submit" = s2l "text") || decide (s2l "submit" = s2l "hidden")) = true) from by decide)] at hproc
      rw [if_neg (show ¬(s2l "submit" = s2l "checkbox") from by decide)] at hproc
      rw [if_neg (show ¬(s2l "submit" = s2l "radio") from by decide)] at hproc
      rw [if_neg (show ¬(s2l "submit" = s2l "file") from by decide)] at hproc
      rw [if_neg (show ¬(s2l "submit" = s2l "password") from by decide)] at hproc
      rw [if_neg (show ¬(s2l "submit" = s2l "image") from by decide)] at hproc
      rw [if_pos (show (decide True || decide (s2l "submit" = s2l "reset") || decide (s2l "submit" = s2l "button")) = true from by decide)] at hproc
      simp only [Except.ok.injEq] at hproc
      subst hproc
      refine ⟨set_attr attrs1 (s2l "value")
          (if pyTruthy (dictGetD st.defaults (get_attr attrs (s2l "name") vnone) vnone) = true
           then dictGetD st.defaults (get_attr attrs (s2l "name") vnone) vnone
           else get_attr attrs1 (s2l "value") (vstr [])), by simp, ?_⟩
      rw [get_attr_set_attr_self _ _ _ _ (by decide)]
      try rw [hv]
  · rw [if_neg hec] at hproc
    have hv : get_attr attrs (s2l "value") (vstr []) = get_attr attrs (s2l "value") (vstr []) := rfl
    rw [if_neg (show ¬((decide (s2l "submit" = s2l "text") || decide (s2l "submit" = s2l "hidden")) = true) from by decide)] at hproc
    rw [if_neg (show ¬(s2l "submit" = s2l "checkbox") from by decide)] at hproc
    rw [if_neg (show ¬(s2l "submit" = s2l "radio") from by decide)] at hproc
    rw [if_neg (show ¬(s2l "submit" = s2l "file") from by decide)] at hproc
    rw [if_neg (show ¬(s2l "submit" = s2l "password") from by decide)] at hproc
    rw [if_neg (show ¬(s2l "submit" = s2l "image") from by decide)] at hproc
    rw [if_pos (show (decide True || decide (s2l "submit" = s2l "reset") || decide (s2l "submit" = s2l "button")) = true from by decide)] at hproc
    simp only [Except.ok.injEq] at hproc
    subst hproc
    refine ⟨set_attr attrs (s2l "value")
        (if pyTruthy (dictGetD st.defaults (get_attr attrs (s2l "name") vnone) vnone) = true
         then dictGetD st.defaults (get_attr attrs (s2l "name") vnone) vnone
         else get_attr attrs (s2l "value") (vstr [])), by simp, ?_⟩
    rw [get_attr_set_attr_self _ _ _ _ (by decide)]
    try rw [hv]

theorem handle_input_reset_fallback (st : FPState) (p : Pos) (attrs : List (Str × Val))
    (startend : Bool) (st' : FPState)
    (hadd : st.add_attributes = [])
    (htype : get_attr attrs (s2l "type") vnone = vstr (s2l "reset"))
    (hproc : processEvent st (Event.start p (s2l "input") attrs startend) = .ok st') :
    ∃ A, st'.content = (write_pos st p).content ++
        [Item.marker (get_attr attrs (s2l "name") vnone),
         Item.txt (write_tag (s2l "input") A startend)]
      ∧ get_attr A (s2l "value") vnone =
          (if pyTruthy (dictGetD st.defaults (get_attr attrs (s2l "name") vnone) vnone) = true
           then dictGetD st.defaults (get_attr attrs (s2l "name") vnone) vnone
           else get_attr attrs (s2l "value") (vstr [])) := by
  rw [processEvent, handle_starttag, if_pos rfl] at hproc
  have hpres := write_pos_preserves st p
  rw [handle_input] at hproc
  rw [htype] at hproc
  rw [show (if pyTruthy (vstr (s2l "reset")) = true then vstr (s2l "reset")
      else vstr (s2l "text")) = vstr (s2l "reset") from by decide] at hproc
  dsimp only at hproc
  rw [show lowerStr (s2l "reset") = s2l "reset" from by decide] at hproc
  simp only [bind, Except.bind, pure, Except.pure] at hproc
  rw [applyAddAttributes_nil _ _ _
    (by simp [write_marker, hpres.2.2.2.2.2.2.2.1, hadd])] at hproc
  dsimp only at hproc
  simp only [write_marker, write_text, add_key] at hproc
  simp only [hpres.1, hpres.2.1, hpres.2.2.2.2.2.2.1] at hproc
  by_cases hec : (pyTruthy st.error_class
      && pyTruthy (dictGetD st.errors (get_attr attrs (s2l "name") vnone) vnone)) = true
  · rw [if_pos hec] at hproc
    cases hAC : add_class attrs st.error_class with
    | error e => rw [hAC] at hproc; simp at hproc
    | ok attrs1 =>
      rw [hAC] at hproc
      dsimp only at hproc
      obtain ⟨cs, hs⟩ := add_class_eq attrs st.error_class attrs1 hAC
      have hv : get_attr attrs1 (s2l "value") (vstr []) = get_attr attrs (s2l "value") (vstr []) := by
        rw [hs]; exact get_attr_set_attr_other _ _ _ _ _ (by decide) (by decide)
      rw [if_neg (show ¬((decide (s2l "reset" = s2l "text") || decide (s2l "reset" = s2l "hidden")) = true) from by decide)] at hproc
      rw [if_neg (show ¬(s2l "reset" = s2l "checkbox") from by decide)] at hproc
      rw [if_neg (show ¬(s2l "reset" = s2l "radio") from by decide)] at hproc
      rw [if_neg (show ¬(s2l "reset" = s2l "file") from by decide)] at hproc
      rw [if_neg (show ¬(s2l "reset" = s2l "password") from by decide)] at hproc
      rw [if_neg (show ¬(s2l "reset" = s2l "image") from by decide)] at hproc
      rw [if_pos (show (decide (s2l "reset" = s2l "submit") || decide True || decide (s2l "reset" = s2l "button")) = true from by decide)] at hproc
      simp only [Except.ok.injEq] at hproc
      subst hproc
      refine ⟨set_attr attrs1 (s2l "value")
          (if pyTruthy (dictGetD st.defaults (get_attr attrs (s2l "name") vnone) vnone) = true
           then dictGetD st.defaults (get_attr attrs (s2l "name") vnone) vnone
           else get_attr attrs1 (s2l "value") (vstr [])), by simp, ?_⟩
      rw [get_attr_set_attr_self _ _ _ _ (by decide)]
      try rw [hv]
  · rw [if_neg hec] at hproc
    have hv : get_attr attrs (s2l "value") (vstr []) = get_attr attrs (s2l "value") (vstr []) := rfl
    rw [if_neg (show ¬((decide (s2l "reset" = s2l "text") || decide (s2l "reset" = s2l "hidden")) = true) from by decide)] at hproc
    rw [if_neg (show ¬(s2l "reset" = s2l "checkbox") from by decide)] at hproc
    rw [if_neg (show ¬(s2l "reset" = s2l "radio") from by decide)] at hproc
    rw [if_neg (show ¬(s2l "reset" = s2l "file") from by decide)] at hproc
    rw [if_neg (show ¬(s2l "reset" = s2l "password") from by decide)] at hproc
    rw [if_neg (show ¬(s2l "reset" = s2l "image") from by decide)] at hproc
    rw [if_pos (show (decide (s2l "reset" = s2l "submit") || decide True || decide (s2l "reset" = s2l "button")) = true from by decide)] at hproc
    simp only [Except.ok.injEq] at hproc
    subst hproc
    refine ⟨set_attr attrs (s2l "value")
        (if pyTruthy (dictGetD st.defaults (get_attr attrs (s2l "name") vnone) vnone) = true
         then dictGetD st.defaults (get_attr attrs (s2l "name") vnone) vnone
         else get_attr attrs (s2l "value") (vstr [])), by simp, ?_⟩
    rw [get_attr_set_attr_self _ _ _ _ (by decide)]
    try rw [hv]

theorem handle_input_button_fallback (st : FPState) (p : Pos) (attrs : List (Str × Val))
    (startend : Bool) (st' : FPState)
    (hadd : st.add_attributes = [])
    (htype : get_attr attrs (s2l "type") vnone = vstr (s2l "button"))
    (hproc : processEvent st (Event.start p (s2l "input") attrs startend) = .ok st') :
    ∃ A, st'.content = (write_pos st p).content ++
        [Item.marker (get_attr attrs (s2l "name") vnone),
         Item.txt (write_tag (s2l "input") A startend)]
      ∧ get_attr A (s2l "value") vnone =
          (if pyTruthy (dictGetD st.defaults (get_attr attrs (s2l "name") vnone) vnone) = true
           then dictGetD st.defaults (get_attr attrs (s2l "name") vnone) vnone
           else get_attr attrs (s2l "value") (vstr [])) := by
  rw [processEvent, handle_starttag, if_pos rfl] at hproc
  have hpres := write_pos_preserves st p
  rw [handle_input] at hproc
  rw [htype] at hproc
  rw [show (if pyTruthy (vstr (s2l "button")) = true then vstr (s2l "button")
      else vstr (s2l "text")) = vstr (s2l "button") from by decide] at hproc
  dsimp only at hproc
  rw [show lowerStr (s2l "button") = s2l "button" from by decide] at hproc
  simp only [bind, Except.bind, pure, Except.pure] at hproc
  rw [applyAddAttributes_nil _ _ _
    (by simp [write_marker, hpres.2.2.2.2.2.2.2.1, hadd])] at hproc
  dsimp only at hproc
  simp only [write_marker, write_text, add_key] at hproc
  simp only [hpres.1, hpres.2.1, hpres.2.2.2.2.2.2.1] at hproc
  by_cases hec : (pyTruthy st.error_class
      && pyTruthy (dictGetD st.errors (get_attr attrs (s2l "name") vnone) vnone)) = true
  · rw [if_pos hec] at hproc
    cases hAC : add_class attrs st.error_class with
    | error e => rw [hAC] at hproc; simp at hproc
    | ok attrs1 =>
      rw [hAC] at hproc
      dsimp only at hproc
      obtain ⟨cs, hs⟩ := add_class_eq attrs st.error_class attrs1 hAC
      have hv : get_attr attrs1 (s2l "value") (vstr []) = get_attr attrs (s2l "value") (vstr []) := by
        rw [hs]; exact get_attr_set_attr_other _ _ _ _ _ (by decide) (by decide)
      rw [if_neg (show ¬((decide (s2l "button" = s2l "text") || decide (s2l "button" = s2l "hidden")) = true) from by decide)] at hproc
      rw [if_neg (show ¬(s2l "button" = s2l "checkbox") from by decide)] at hproc
      rw [if_neg (show ¬(s2l "button" = s2l "radio") from by decide)] at hproc
      rw [if_neg (show ¬(s2l "button" = s2l "file") from by decide)] at hproc
      rw [if_neg (show ¬(s2l "button" = s2l "password") from by decide)] at hproc
      rw [if_neg (show ¬(s2l "button" = s2l "image") from by decide)] at hproc
      rw [if_pos (show (decide (s2l "button" = s2l "submit") || decide (s2l "button" = s2l "reset") || decide True) = true from by decide)] at hproc
      simp only [Except.ok.injEq] at hproc
      subst hproc
      refine ⟨set_attr attrs1 (s2l "value")
          (if pyTruthy (dictGetD st.defaults (get_attr attrs (s2l "name") vnone) vnone) = true
           then dictGetD st.defaults (get_attr attrs (s2l "name") vnone) vnone
           else get_attr attrs1 (s2l "value") (vstr [])), by simp, ?_⟩
      rw [get_attr_set_attr_self _ _ _ _ (by decide)]
      try rw [hv]
  · rw [if_neg hec] at hproc
    have hv : get_attr attrs (s2l "value") (vstr []) = get_attr attrs (s2l "value") (vstr []) := rfl
    rw [if_neg (show ¬((decide (s2l "button" = s2l "text") || decide (s2l "button" = s2l "hidden")) = true) from by decide)] at hproc
    rw [if_neg (show ¬(s2l "button" = s2l "checkbox") from by decide)] at hproc
    rw [if_neg (show ¬(s2l "button" = s2l "radio") from by decide)] at hproc
    rw [if_neg (show ¬(s2l "button" = s2l "file") from by decide)] at hproc
    rw [if_neg (show ¬(s2l "button" = s2l "password") from by decide)] at hproc
    rw [if_neg (show ¬(s2l "button" = s2l "image") from by decide)] at hproc
    rw [if_pos (show (decide (s2l "button" = s2l "submit") || decide (s2l "button" = s2l "reset") || decide True) = true from by decide)] at hproc
    simp only [Except.ok.injEq] at hproc
    subst hproc
    refine ⟨set_attr attrs (s2l "value")
        (if pyTruthy (dictGetD st.defaults (get_attr attrs (s2l "name") vnone) vnone) = true
         then dictGetD st.defaults (get_attr attrs (s2l "name") vnone) vnone
         else get_attr attrs (s2l "value") (vstr [])), by simp, ?_⟩
    rw [get_attr_set_attr_self _ _ _ _ (by decide)]
    try rw [hv]

theorem handle_input_image_fallback (st : FPState) (p : Pos) (attrs : List (Str × Val))
    (startend : Bool) (st' : FPState)
    (hadd : st.add_attributes = [])
    (htype : get_attr attrs (s2l "type") vnone = vstr (s2l "image"))
    (hproc : processEvent st (Event.start p (s2l "input") attrs startend) = .ok st') :
    ∃ A, st'.content = (write_pos st p).content ++
        [Item.marker (get_attr attrs (s2l "name") vnone),
         Item.txt (write_tag (s2l "input") A startend)]
      ∧ get_attr A (s2l "src") vnone =
          (if pyTruthy (dictGetD st.defaults (get_attr attrs (s2l "name") vnone) vnone) = true
           then dictGetD st.defaults (get_attr attrs (s2l "name") vnone) vnone
           else get_attr attrs (s2l "src") (vstr [])) := by
  rw [processEvent, handle_starttag, if_pos rfl] at hproc
  have hpres := write_pos_preserves st p
  rw [handle_input] at hproc
  rw [htype] at hproc
  rw [show (if pyTruthy (vstr (s2l "image")) = true then vstr (s2l "image")
      else vstr (s2l "text")) = vstr (s2l "image") from by decide] at hproc
  dsimp only at hproc
  rw [show lowerStr (s2l "image") = s2l "image" from by decide] at hproc
  simp only [bind, Except.bind, pure, Except.pure] at hproc
  rw [applyAddAttributes_nil _ _ _
    (by simp [write_marker, hpres.2.2.2.2.2.2.2.1, hadd])] at hproc
  dsimp only at hproc
  simp only [write_marker, write_text, add_key] at hproc
  simp only [hpres.1, hpres.2.1, hpres.2.2.2.2.2.2.1] at hproc
  by_cases hec : (pyTruthy st.error_class
      && pyTruthy (dictGetD st.errors (get_attr attrs (s2l "name") vnone) vnone)) = true
  · rw [if_pos hec] at hproc
    cases hAC : add_class attrs st.error_class with
    | error e => rw [hAC] at hproc; simp at hproc
    | ok attrs1 =>
      rw [hAC] at hproc
      dsimp only at hproc
      obtain ⟨cs, hs⟩ := add_class_eq attrs st.error_class attrs1 hAC
      have hv : get_attr attrs1 (s2l "src") (vstr []) = get_attr attrs (s2l "src") (vstr []) := by
        rw [hs]; exact get_attr_set_attr_other _ _ _ _ _ (by decide) (by decide)
      rw [if_neg (show ¬((decide (s2l "image" = s2l "text") || decide (s2l "image" = s2l "hidden")) = true) from by decide)] at hproc
      rw [if_neg (show ¬(s2l "image" = s2l "checkbox") from by decide)] at hproc
      rw [if_neg (show ¬(s2l "image" = s2l "radio") from by decide)] at hproc
      rw [if_neg (show ¬(s2l "image" = s2l "file") from by decide)] at hproc
      rw [if_neg (show ¬(s2l "image" = s2l "password") from by decide)] at hproc
      rw [if_pos trivial] at hproc
      simp only [Except.ok.injEq] at hproc
      subst hproc
      refine ⟨set_attr attrs1 (s2l "src")
          (if pyTruthy (dictGetD st.defaults (get_attr attrs (s2l "name") vnone) vnone) = true
           then dictGetD st.defaults (get_attr attrs (s2l "name") vnone) vnone
           else get_attr attrs1 (s2l "src") (vstr [])), by simp, ?_⟩
      rw [get_attr_set_attr_self _ _ _ _ (by decide)]
      try rw [hv]
  · rw [if_neg hec] at hproc
    have hv : get_attr attrs (s2l "src") (vstr []) = get_attr attrs (s2l "src") (vstr []) := rfl
    rw [if_neg (show ¬((decide (s2l "image" = s2l "text") || decide (s2l "image" = s2l "hidden")) = true) from by decide)] at hproc
    rw [if_neg (show ¬(s2l "image" = s2l "checkbox") from by decide)] at hproc
    rw [if_neg (show ¬(s2l "image" = s2l "radio") from by decide)] at hproc
    rw [if_neg (show ¬(s2l "image" = s2l "file") from by decide)] at hproc
    rw [if_neg (show ¬(s2l "image" = s2l "password") from by decide)] at hproc
    rw [if_pos trivial] at hproc
    simp only [Except.ok.injEq] at hproc
    subst hproc
    refine ⟨set_attr attrs (s2l "src")
        (if pyTruthy (dictGetD st.defaults (get_attr attrs (s2l "name") vnone) vnone) = true
         then dictGetD st.defaults (get_attr attrs (s2l "name") vnone) vnone
         else get_attr attrs (s2l "src") (vstr [])), by simp, ?_⟩
    rw [get_attr_set_attr_self _ _ _ _ (by decide)]
    try rw [hv]
end HtmlFill

namespace HtmlFill
open Val

/-- Claim C8 (amended): for input types password, submit, reset and
button the emitted `value` (and for image the emitted `src`) equals the
default when the default is truthy, else the existing attribute value,
else empty; a present but falsy default falls back to the existing
attribute. -/
theorem C8_falsy_default_fallback :
    (∀ (st : FPState) (p : Pos) (attrs : List (Str × Val)) (startend : Bool)
        (st' : FPState) (t : Str),
      st.add_attributes = [] →
      (t = s2l "password" ∨ t = s2l "submit" ∨ t = s2l "reset" ∨ t = s2l "button") →
      get_attr attrs (s2l "type") vnone = vstr t →
      processEvent st (Event.start p (s2l "input") attrs startend) = .ok st' →
      ∃ A, st'.content = (write_pos st p).content ++
          [Item.marker (get_attr attrs (s2l "name") vnone),
           Item.txt (write_tag (s2l "input") A startend)]
        ∧ get_attr A (s2l "value") vnone =
            (if pyTruthy (dictGetD st.defaults (get_attr attrs (s2l "name") vnone) vnone) = true
             then dictGetD st.defaults (get_attr attrs (s2l "name") vnone) vnone
             else get_attr attrs (s2l "value") (vstr [])))
    ∧ (∀ (st : FPState) (p : Pos) (attrs : List (Str × Val)) (startend : Bool)
        (st' : FPState),
      st.add_attributes = [] →
      get_attr attrs (s2l "type") vnone = vstr (s2l "image") →
      processEvent st (Event.start p (s2l "input") attrs startend) = .ok st' →
      ∃ A, st'.content = (write_pos st p).content ++
          [Item.marker (get_attr attrs (s2l "name") vnone),
           Item.txt (write_tag (s2l "input") A startend)]
        ∧ get_attr A (s2l "src") vnone =
            (if pyTruthy (dictGetD st.defaults (get_attr attrs (s2l "name") vnone) vnone) = true
             then dictGetD st.defaults (get_attr attrs (s2l "name") vnone) vnone
             else get_attr attrs (s2l "src") (vstr []))) := by
  constructor
  · rintro st p attrs startend st' t hadd (rfl | rfl | rfl | rfl) htype hproc
    · exact handle_input_password_fallback st p attrs startend st' hadd htype hproc
    · exact handle_input_submit_fallback st p attrs startend st' hadd htype hproc
    · exact handle_input_reset_fallback st p attrs startend st' hadd htype hproc
    · exact handle_input_button_fallback st p attrs startend st' hadd htype hproc
  · intro st p attrs startend st' hadd htype hproc
    exact handle_input_image_fallback st p attrs startend st' hadd htype hproc

/-- Witness for the amended C8: with default `""` (falsy) for `k` and an
existing value `secret`, the emitted value is `secret`. -/
theorem C8_falsy_default_fallback_witness :
    wC8st.add_attributes = []
    ∧ (∃ A, wC8s1.content = (write_pos wC8st (1, 0)).content ++
          [Item.marker (get_attr wC8attrs (s2l "name") vnone),
           Item.txt (write_tag (s2l "input") A false)]
        ∧ get_attr A (s2l "value") vnone =
            (if pyTruthy (dictGetD wC8st.defaults (get_attr wC8attrs (s2l "name") vnone) vnone) = true
             then dictGetD wC8st.defaults (get_attr wC8attrs (s2l "name") vnone) vnone
             else get_attr wC8attrs (s2l "value") (vstr []))) :=
  ⟨rfl, C8_falsy_default_fallback.1 wC8st (1, 0) wC8attrs false wC8s1 (s2l "password")
    rfl (Or.inl rfl) rfl rfl⟩

/-- Counterexample to C8 as stated: the default for `k` is present (the
empty string) yet the emitted tag keeps the existing value `secret`
rather than the default. -/
theorem C8_falsy_default_counterexample :
    processEvent wC8st (Event.start (1, 0) (s2l "input") wC8attrs false) = .ok wC8s1
    ∧ dictGet? wC8st.defaults (vstr (s2l "k")) = some (vstr [])
    ∧ serializeContent wC8s1.content =
        s2l "<input type=\"password\" name=\"k\" value=\"secret\">"
    ∧ s2l "secret" ≠ [] :=
  ⟨rfl, rfl, rfl, by decide⟩
end HtmlFill

namespace HtmlFill
open Val

/-- Claim C3: in strict mode `close` fails when some default key was
never consumed, listing the unused keys, and otherwise fails when some
error key remains unconsumed after auto-insertion, listing the unused
error keys with their text; with strict mode disabled unused default
keys are ignored. -/
theorem C3_strict_mode :
    (∀ st : FPState, st.use_all_keys = true → st.auto_error_formatter = none →
      (st.defaults.filter (fun kv => !memKey st.used_keys kv.1)).isEmpty = false →
      close st = .error (.unusedDefaults
        ((st.defaults.filter (fun kv => !memKey st.used_keys kv.1)).map (·.1))))
    ∧ (∀ st : FPState, st.use_all_keys = true → st.auto_error_formatter = none →
      (st.defaults.filter (fun kv => !memKey st.used_keys kv.1)).isEmpty = true →
      (unusedErrorsOf st).isEmpty = false →
      close st = .error (.unusedErrors
        ((unusedErrorsOf st).map (fun kv => (kv.1, dictGetD st.errors kv.1 vnone)))))
    ∧ (∀ st : FPState, st.use_all_keys = false → st.auto_error_formatter = none →
      close st = .ok (serializeContent st.content)) := by
  refine ⟨?_, ?_, ?_⟩
  · intro st huak hauto hne
    rw [close_no_auto st hauto, if_pos huak, if_pos (by rw [hne]; rfl)]
  · intro st huak hauto hdef herr
    rw [close_no_auto st hauto, if_pos huak, if_neg (by rw [hdef]; simp),
      if_pos (by rw [herr]; rfl)]
  · intro st huak hauto
    rw [close_no_auto st hauto, if_neg (by rw [huak]; simp)]

/-- Witness for C3 on three concrete states. -/
theorem C3_strict_mode_witness :
    (wC3a.defaults.filter (fun kv => !memKey wC3a.used_keys kv.1)).isEmpty = false
    ∧ close wC3a = .error (.unusedDefaults
        ((wC3a.defaults.filter (fun kv => !memKey wC3a.used_keys kv.1)).map (·.1)))
    ∧ close wC3b = .error (.unusedErrors
        ((unusedErrorsOf wC3b).map (fun kv => (kv.1, dictGetD wC3b.errors kv.1 vnone))))
    ∧ close wC3c = .ok (serializeContent wC3c.content) :=
  ⟨rfl, C3_strict_mode.1 wC3a rfl rfl rfl,
   C3_strict_mode.2.1 wC3b rfl rfl rfl rfl,
   C3_strict_mode.2.2 wC3c rfl rfl⟩
end HtmlFill

namespace HtmlFill
open Val

/-- Successful insertion splits the buffer at the first matching marker
and puts the text immediately before it. -/
theorem insert_ok_struct (content : List Item) (k : Val) (t : Str) (out : List Item)
    (h : insert_at_marker content k t = .ok out) :
    ∃ l1 l2, content = l1 ++ Item.marker k :: l2 ∧ Item.marker k ∉ l1
      ∧ out = l1 ++ Item.txt t :: Item.marker k :: l2 := by
  induction content generalizing out with
  | nil => simp [insert_at_marker] at h
  | cons i rest ih =>
    rw [insert_at_marker] at h
    by_cases hi : i = Item.marker k
    · rw [if_pos hi] at h
      simp only [Except.ok.injEq] at h
      exact ⟨[], rest, by simp [hi], by simp, by simp [← h, hi]⟩
    · rw [if_neg hi] at h
      cases hrec : insert_at_marker rest k t with
      | error e => rw [hrec] at h; simp [Except.map] at h
      | ok out2 =>
        rw [hrec] at h
        simp only [Except.map, Except.ok.injEq] at h
        obtain ⟨l1, l2, hc, hnm, ho⟩ := ih out2 hrec
        refine ⟨i :: l1, l2, by rw [hc]; rfl, ?_, by rw [← h, ho]; rfl⟩
        simp only [List.mem_cons, not_or]
        exact ⟨fun he => hi he.symm, hnm⟩

/-- Insertion before the first matching marker (claim C2, positive
case): when the buffer splits at the first marker with key `k`, the
result places the text immediately before that marker, leaving the
marker in place. -/
theorem insert_at_marker_first (l1 l2 : List Item) (k : Val) (t : Str)
    (hnm : Item.marker k ∉ l1) :
    insert_at_marker (l1 ++ Item.marker k :: l2) k t =
      .ok (l1 ++ Item.txt t :: Item.marker k :: l2) := by
  induction l1 with
  | nil => simp [insert_at_marker]
  | cons i rest ih =>
    simp only [List.mem_cons, not_or] at hnm
    rw [List.cons_append, insert_at_marker, if_neg (fun he => hnm.1 he.symm), ih hnm.2]
    rfl

/-- Insertion fails with `ValueError` when no marker with the key is in
the buffer (claim C2, failure case). -/
theorem insert_at_marker_not_found (content : List Item) (k : Val) (t : Str)
    (h : Item.marker k ∉ content) :
    insert_at_marker content k t = .error (.markerNotFound k t) := by
  induction content with
  | nil => rfl
  | cons i rest ih =>
    simp only [List.mem_cons, not_or] at h
    rw [insert_at_marker, if_neg (fun he => h.1 he.symm), ih h.2]
    rfl

/-- Insertion only adds a text chunk: the markers of the buffer are
unchanged. -/
theorem insert_mem_marker (content : List Item) (k : Val) (t : Str) (out : List Item)
    (h : insert_at_marker content k t = .ok out) (m : Val) :
    Item.marker m ∈ out ↔ Item.marker m ∈ content := by
  obtain ⟨l1, l2, hc, _, ho⟩ := insert_ok_struct content k t out h
  subst hc ho
  simp

/-- Inserting for a different key never separates an adjacent
text/marker pair: the first marker of the other key is a different item,
so the insertion point is never between the pair. -/
theorem insert_preserves_pair (content : List Item) (k k' : Val) (x : Str) (t : Str)
    (out : List Item) (l1 l2 : List Item)
    (hct : content = l1 ++ Item.txt x :: Item.marker k :: l2)
    (hnl1 : Item.marker k ∉ l1)
    (hne : k' ≠ k)
    (hok : insert_at_marker content k' t = .ok out) :
    ∃ l1' l2', out = l1' ++ Item.txt x :: Item.marker k :: l2'
      ∧ Item.marker k ∉ l1' := by
  subst hct
  induction l1 generalizing out with
  | nil =>
    rw [List.nil_append, insert_at_marker, if_neg (by simp)] at hok
    rw [insert_at_marker,
      if_neg (by simp only [Item.marker.injEq]; exact fun h => hne h.symm)] at hok
    cases hrec : insert_at_marker l2 k' t with
    | error e => rw [hrec] at hok; simp [Except.map] at hok
    | ok out2 =>
      rw [hrec] at hok
      simp only [Except.map, Except.ok.injEq] at hok
      exact ⟨[], out2, by rw [← hok]; rfl, by simp⟩
  | cons i rest ih =>
    simp only [List.mem_cons, not_or] at hnl1
    rw [List.cons_append, insert_at_marker] at hok
    by_cases hi : i = Item.marker k'
    · rw [if_pos hi] at hok
      simp only [Except.ok.injEq] at hok
      refine ⟨Item.txt t :: i :: rest, l2, by rw [← hok]; rfl, ?_⟩
      simp only [List.mem_cons, not_or]
      exact ⟨by simp, hnl1.1, hnl1.2⟩
    · rw [if_neg hi] at hok
      cases hrec : insert_at_marker (rest ++ Item.txt x :: Item.marker k :: l2) k' t with
      | error e => rw [hrec] at hok; simp [Except.map] at hok
      | ok out2 =>
        rw [hrec] at hok
        simp only [Except.map, Except.ok.injEq] at hok
        obtain ⟨l1', l2', ho2, hn2⟩ := ih out2 hnl1.2 hrec
        exact ⟨i :: l1', l2', by rw [← hok, ho2]; rfl,
          by simp only [List.mem_cons, not_or]; exact ⟨hnl1.1, hn2⟩⟩
end HtmlFill

namespace HtmlFill
open Val

/-- The auto-insertion loop fails when some pending key has no marker in
the buffer. -/
theorem autoInsertAll_error (f : Formatter) (dict : PyDict) (content : List Item)
    (k v : Val) (hmem : (k, v) ∈ dict) (hnm : Item.marker k ∉ content) :
    ∃ e, autoInsertAll f content dict = .error e := by
  induction dict generalizing content with
  | nil => simp at hmem
  | cons kv rest ih =>
    cases kv with
    | mk k0 v0 =>
      rw [autoInsertAll]
      cases hf : f v0 with
      | error e => exact ⟨e, by simp [bind, Except.bind]⟩
      | ok out0 =>
        simp only [bind, Except.bind]
        rcases List.mem_cons.mp hmem with heq | hmem2
        · injection heq with h1 h2
          subst h1
          exact ⟨.markerNotFound k out0,
            by rw [insert_at_marker_not_found content k out0 hnm]⟩
        · cases hins : insert_at_marker content k0 out0 with
          | error e => exact ⟨e, rfl⟩
          | ok c1 =>
            have hnm1 : Item.marker k ∉ c1 := by
              rw [insert_mem_marker content k0 out0 c1 hins k]
              exact hnm
            obtain ⟨e, he⟩ := ih c1 hmem2 hnm1
            exact ⟨e, he⟩
end HtmlFill

namespace HtmlFill
open Val

/-- The loop preserves an established text/marker adjacency for a key it
does not process. -/
theorem autoInsertAll_preserves_pair (f : Formatter) (dict : PyDict) (k : Val) (x : Str)
    (content out : List Item) (l1 l2 : List Item)
    (hk : k ∉ dict.map Prod.fst)
    (hct : content = l1 ++ Item.txt x :: Item.marker k :: l2)
    (hnl1 : Item.marker k ∉ l1)
    (hok : autoInsertAll f content dict = .ok out) :
    ∃ l1' l2', out = l1' ++ Item.txt x :: Item.marker k :: l2'
      ∧ Item.marker k ∉ l1' := by
  induction dict generalizing content l1 l2 with
  | nil =>
    rw [autoInsertAll] at hok
    simp only [Except.ok.injEq] at hok
    exact ⟨l1, l2, by rw [← hok, hct], hnl1⟩
  | cons kv rest ih =>
    cases kv with
    | mk k0 v0 =>
      simp only [List.map_cons, List.mem_cons, not_or] at hk
      rw [autoInsertAll] at hok
      simp only [bind, Except.bind] at hok
      cases hf : f v0 with
      | error e => rw [hf] at hok; simp at hok
      | ok out0 =>
        rw [hf] at hok
        dsimp only at hok
        cases hins : insert_at_marker content k0 out0 with
        | error e => rw [hins] at hok; simp at hok
        | ok c1 =>
          rw [hins] at hok
          obtain ⟨l1', l2', hc1, hn1⟩ :=
            insert_preserves_pair content k k0 x out0 c1 l1 l2 hct hnl1
              (fun he => hk.1 he.symm) hins
          exact ih c1 l1' l2' hk.2 hc1 hn1 hok

/-- For every key processed by a successful loop pass (unique keys), the
formatted error ends up immediately before the first marker carrying the
key. -/
theorem autoInsertAll_adjacency (f : Formatter) (dict : PyDict)
    (content content' : List Item)
    (hnodup : (dict.map Prod.fst).Nodup)
    (hok : autoInsertAll f content dict = .ok content')
    (k v : Val) (hmem : (k, v) ∈ dict) :
    ∃ out l1 l2, f v = .ok out
      ∧ content' = l1 ++ Item.txt out :: Item.marker k :: l2
      ∧ Item.marker k ∉ l1 := by
  induction dict generalizing content with
  | nil => simp at hmem
  | cons kv rest ih =>
    cases kv with
    | mk k0 v0 =>
      simp only [List.map_cons, List.nodup_cons] at hnodup
      rw [autoInsertAll] at hok
      simp only [bind, Except.bind] at hok
      cases hf : f v0 with
      | error e => rw [hf] at hok; simp at hok
      | ok out0 =>
        rw [hf] at hok
        dsimp only at hok
        cases hins : insert_at_marker content k0 out0 with
        | error e => rw [hins] at hok; simp at hok
        | ok c1 =>
          rw [hins] at hok
          rcases List.mem_cons.mp hmem with heq | hmem2
          · injection heq with h1 h2
            subst h1 h2
            obtain ⟨l1, l2, hc, hnm, ho⟩ := insert_ok_struct content k out0 c1 hins
            obtain ⟨l1', l2', ho', hn'⟩ :=
              autoInsertAll_preserves_pair f rest k out0 c1 content' l1 l2
                hnodup.1 ho hnm hok
            exact ⟨out0, l1', l2', hf, ho', hn'⟩
          · exact ih c1 hnodup.2 hok hmem2

/-- With an auto-formatter configured, `close` runs the insertion loop
on the unused errors and the unused-error strict check can no longer
fire. -/
theorem close_with_auto (st : FPState) (f : Formatter)
    (hauto : st.auto_error_formatter = some f) :
    close st = (autoInsertAll f st.content (unusedErrorsOf st)).bind (fun c =>
      if st.use_all_keys then
        (if !(st.defaults.filter (fun kv => !memKey st.used_keys kv.1)).isEmpty then
           .error (.unusedDefaults
             ((st.defaults.filter (fun kv => !memKey st.used_keys kv.1)).map (·.1)))
         else .ok (serializeContent c))
      else .ok (serializeContent c)) := by
  simp only [close, hauto, bind, Except.bind, pure, Except.pure, Except.map]
  cases autoInsertAll f st.content (unusedErrorsOf st) with
  | error e => rfl
  | ok c => simp
end HtmlFill

namespace HtmlFill
open Val

/-- Claim C2: at finalize, with an auto-formatter configured, every
error key not in `used_errors` has its formatted error inserted into the
buffer immediately before the first marker carrying the key (found by
forward scan, with the marker left in place), and the operation fails
with an error when no marker with the key exists. -/
theorem C2_auto_insertion :
    (∀ (st : FPState) (f : Formatter), st.auto_error_formatter = some f →
      close st = (autoInsertAll f st.content (unusedErrorsOf st)).bind (fun c =>
        if st.use_all_keys then
          (if !(st.defaults.filter (fun kv => !memKey st.used_keys kv.1)).isEmpty then
             .error (.unusedDefaults
               ((st.defaults.filter (fun kv => !memKey st.used_keys kv.1)).map (·.1)))
           else .ok (serializeContent c))
        else .ok (serializeContent c)))
    ∧ (∀ (f : Formatter) (dict : PyDict) (content content' : List Item),
        (dict.map Prod.fst).Nodup → autoInsertAll f content dict = .ok content' →
        ∀ k v, (k, v) ∈ dict → ∃ out l1 l2, f v = .ok out
          ∧ content' = l1 ++ Item.txt out :: Item.marker k :: l2 ∧ Item.marker k ∉ l1)
    ∧ (∀ (f : Formatter) (dict : PyDict) (content : List Item) (k v : Val),
        (k, v) ∈ dict → Item.marker k ∉ content →
        ∃ e, autoInsertAll f content dict = .error e) :=
  ⟨fun st f hauto => close_with_auto st f hauto,
   fun f dict content content' h1 h2 k v h3 =>
     autoInsertAll_adjacency f dict content content' h1 h2 k v h3,
   fun f dict content k v h1 h2 => autoInsertAll_error f dict content k v h1 h2⟩

/-- Witness for C2: the formatted error for `k` is inserted before the
marker written by the text input named `k`, and with an empty buffer the
loop fails. -/
theorem C2_auto_insertion_witness :
    wC2s1.auto_error_formatter = some wC2fmt
    ∧ autoInsertAll wC2fmt wC2s1.content (unusedErrorsOf wC2s1) = .ok wC2c'
    ∧ ((unusedErrorsOf wC2s1).map Prod.fst).Nodup
    ∧ (∃ out l1 l2, wC2fmt (vstr (s2l "bad")) = .ok out
        ∧ wC2c' = l1 ++ Item.txt out :: Item.marker (vstr (s2l "k")) :: l2
        ∧ Item.marker (vstr (s2l "k")) ∉ l1)
    ∧ (∃ e, autoInsertAll wC2fmt [] (unusedErrorsOf wC2s1) = .error e) := by
  refine ⟨rfl, rfl, by decide, ?_, ?_⟩
  · exact C2_auto_insertion.2.1 wC2fmt (unusedErrorsOf wC2s1) wC2s1.content wC2c'
      (by decide) rfl (vstr (s2l "k")) (vstr (s2l "bad")) (by decide)
  · exact C2_auto_insertion.2.2 wC2fmt (unusedErrorsOf wC2s1) [] (vstr (s2l "k"))
      (vstr (s2l "bad")) (by decide) (by simp)
end HtmlFill

namespace HtmlFill
open Val

theorem map_lineAt_range' (lines : List Str) (a n : Nat) :
    (List.range' (a + 1) n).map (fun i => lineAt lines i) =
      (List.range' a n).map (fun i => lines.getD i []) := by
  induction n generalizing a with
  | zero => rfl
  | succ m ih =>
    rw [List.range'_succ, List.range'_succ, List.map_cons, List.map_cons]
    rw [show lineAt lines (a + 1) = lines.getD a [] from by simp [lineAt]]
    rw [ih (a + 1)]

theorem take_decompose (lines : List Str) (a n : Nat) (h : a + n ≤ lines.length) :
    lines.take (a + n) =
      lines.take a ++ (List.range' a n).map (fun i => lines.getD i []) := by
  induction n with
  | zero => simp
  | succ m ih =>
    rw [List.range'_concat, List.map_append, List.map_singleton]
    rw [show a + (m + 1) = (a + m) + 1 from by omega, List.take_succ]
    rw [ih (by omega)]
    have hlt : a + m < lines.length := by omega
    rw [List.getElem?_eq_getElem hlt]
    rw [List.append_assoc]
    congr 2
    simp [List.getD, List.getElem?_eq_getElem hlt]
end HtmlFill

namespace HtmlFill
open Val

theorem flatten_pairs (R : List Nat) (f : Nat → Str) :
    ((R.flatMap (fun i => [f i, [('\n' : Char)]])).flatten : Str) = joinN (R.map f) := by
  induction R with
  | nil => rfl
  | cons a rest ih =>
    simp only [List.flatMap_cons, List.map_cons, joinN, List.flatten_append]
    simp only [joinN] at ih
    rw [ih]
    simp

theorem joinN_append (xs ys : List Str) : joinN (xs ++ ys) = joinN xs ++ joinN ys := by
  simp [joinN]

theorem upTo_append_span (lines : List Str) (p q : Pos)
    (hp : posValid lines p = true) (hq : posValid lines q = true)
    (hle : posLE p q = true) :
    upTo lines p ++ spanText lines p q = upTo lines q := by
  obtain ⟨p1, p2⟩ := p
  obtain ⟨q1, q2⟩ := q
  simp only [posValid, posLE, Bool.and_eq_true, Bool.or_eq_true, decide_eq_true_eq] at hp hq hle
  by_cases hline : q1 = p1
  · subst hline
    have hcol : p2 ≤ q2 := by
      rcases hle with h | ⟨_, h⟩
      · omega
      · exact h
    rw [upTo, upTo, spanText, spanChunks]
    rw [if_pos rfl]
    simp only [List.flatten]
    have htake : (lineAt lines q1).take q2 =
        (lineAt lines q1).take p2 ++ ((lineAt lines q1).drop p2).take (q2 - p2) := by
      rw [← List.take_add _ p2 (q2 - p2)]
      congr 1
      omega
    rw [htake, List.append_assoc]
    simp
  · have h1 : p1 < q1 := by
      rcases hle with h | ⟨he, _⟩
      · exact h
      · exact absurd he.symm hline
    rw [upTo, upTo, spanText, spanChunks]
    rw [if_neg hline]
    have e2 : lines.take p1 = lines.take (p1 - 1) ++ [lines.getD (p1 - 1) []] := by
      conv_lhs => rw [show p1 = (p1 - 1) + 1 from by omega]
      rw [List.take_succ]
      congr 1
      have hlt : p1 - 1 < lines.length := by omega
      simp [List.getD, List.getElem?_eq_getElem hlt]
    have e1 : lines.take (q1 - 1) = lines.take (p1 - 1) ++
        lines.getD (p1 - 1) [] :: (List.range' p1 (q1 - 1 - p1)).map (fun i => lines.getD i []) := by
      have h3 := take_decompose lines p1 (q1 - 1 - p1) (by omega)
      rw [show p1 + (q1 - 1 - p1) = q1 - 1 from by omega] at h3
      rw [h3, e2, List.append_assoc]
      rfl
    rw [e1, joinN_append]
    rw [show (joinN (lines.getD (p1 - 1) [] ::
        (List.range' p1 (q1 - 1 - p1)).map (fun i => lines.getD i []))) =
      (lines.getD (p1 - 1) [] ++ [('\n' : Char)]) ++
        joinN ((List.range' p1 (q1 - 1 - p1)).map (fun i => lines.getD i [])) from by
      simp [joinN]]
    have hmid : ((List.range' (p1 + 1) (q1 - (p1 + 1))).flatMap
        (fun i => [lineAt lines i, [('\n' : Char)]])).flatten =
        joinN ((List.range' p1 (q1 - 1 - p1)).map (fun i => lines.getD i [])) := by
      rw [flatten_pairs, map_lineAt_range',
        show q1 - (p1 + 1) = q1 - 1 - p1 from by omega]
    simp only [List.flatten_cons, List.flatten_append, List.flatten_cons, List.flatten_nil]
    rw [hmid]
    have hLp : lineAt lines p1 = lines.getD (p1 - 1) [] := rfl
    rw [hLp]
    have hsplit : (lines.getD (p1 - 1) []).take p2 ++ (lines.getD (p1 - 1) []).drop p2 =
        lines.getD (p1 - 1) [] := List.take_append_drop _ _
    simp only [List.append_assoc, List.append_nil]
    rw [← List.append_assoc ((lines.getD (p1 - 1) []).take p2)]
    rw [hsplit]
end HtmlFill

namespace HtmlFill
open Val

theorem posLE_trans (p q r : Pos) (h1 : posLE p q = true) (h2 : posLE q r = true) :
    posLE p r = true := by
  simp only [posLE, Bool.or_eq_true, Bool.and_eq_true, decide_eq_true_eq] at h1 h2 ⊢
  omega

theorem spanText_trans (lines : List Str) (p q r : Pos)
    (hp : posValid lines p = true) (hq : posValid lines q = true)
    (hr : posValid lines r = true)
    (hpq : posLE p q = true) (hqr : posLE q r = true) :
    spanText lines p q ++ spanText lines q r = spanText lines p r := by
  have h1 := upTo_append_span lines p q hp hq hpq
  have h2 := upTo_append_span lines q r hq hr hqr
  have h3 := upTo_append_span lines p r hp hr (posLE_trans p q r hpq hqr)
  have h4 : upTo lines p ++ (spanText lines p q ++ spanText lines q r) =
      upTo lines p ++ spanText lines p r := by
    rw [← List.append_assoc, h1, h2, h3]
  exact List.append_cancel_left h4

theorem serialize_append (a b : List Item) :
    serializeContent (a ++ b) = serializeContent a ++ serializeContent b := by
  simp [serializeContent, List.filterMap_append]

theorem serialize_txt_chunks (chunks : List Str) :
    serializeContent (chunks.map Item.txt) = chunks.flatten := by
  induction chunks with
  | nil => rfl
  | cons c cs ih =>
    simp only [List.map_cons, serializeContent, List.filterMap_cons] at ih ⊢
    rw [List.flatten_cons]
    exact congrArg (c ++ ·) ih

theorem processEvent_untouched (st : FPState) (e : Event) (h : untouched e = true) :
    processEvent st e = .ok (write_pos st e.pos) := by
  cases e with
  | misc p => rfl
  | start p tag attrs se =>
    simp only [untouched, Bool.not_eq_true', Bool.or_eq_false_iff, decide_eq_false_iff_not] at h
    obtain ⟨⟨⟨⟨⟨h1, h2⟩, h3⟩, h4⟩, h5⟩, h6⟩ := h
    rw [processEvent, handle_starttag, if_neg h1, if_neg h2, if_neg h3, if_neg h4,
      if_neg h5, if_neg h6]
    rfl
  | stop p tag =>
    simp only [untouched, Bool.not_eq_true', Bool.or_eq_false_iff, decide_eq_false_iff_not] at h
    obtain ⟨⟨h1, h2⟩, h3⟩ := h
    rw [processEvent, handle_endtag, if_neg h1, if_neg h2, if_neg h3]
    rfl
end HtmlFill

namespace HtmlFill
open Val

theorem chainOK_lastPos (lines : List Str) (p : Pos) (events : List Event)
    (hp : posValid lines p = true) (hch : chainOK lines p events = true) :
    posValid lines (lastPos p events) = true ∧ posLE p (lastPos p events) = true := by
  induction events generalizing p with
  | nil => exact ⟨hp, by simp [posLE, lastPos]⟩
  | cons e es ih =>
    simp only [chainOK, Bool.and_eq_true] at hch
    obtain ⟨⟨he, hle⟩, hch'⟩ := hch
    have hrec := ih e.pos he hch'
    have hl : lastPos p (e :: es) = lastPos e.pos es := rfl
    rw [hl]
    exact ⟨hrec.1, posLE_trans p e.pos _ hle hrec.2⟩

theorem joinN_cons (x : Str) (l : List Str) : joinN (x :: l) = x ++ '\n' :: joinN l := by
  simp [joinN]

theorem intercalate_cons_cons (sep x y : Str) (l : List Str) :
    List.intercalate sep (x :: y :: l) = x ++ sep ++ List.intercalate sep (y :: l) := by
  simp [List.intercalate, List.intersperse]

theorem upTo_endPos (lines : List Str) (h : lines ≠ []) :
    upTo lines (endPos lines) = List.intercalate [('\n' : Char)] lines := by
  induction lines with
  | nil => exact absurd rfl h
  | cons x xs ih =>
    cases xs with
    | nil =>
      simp [upTo, endPos, joinN, lineAt, List.intercalate]
    | cons y ys =>
      have ih' := ih (by simp)
      rw [intercalate_cons_cons, ← ih']
      have hlen : (x :: y :: ys).length - 1 = (y :: ys).length := by simp
      have htake : (x :: y :: ys).take ((x :: y :: ys).length - 1) =
          x :: (y :: ys).take ((y :: ys).length - 1) := by
        rw [hlen]
        simp [List.take_succ_cons]
      have hline : lineAt (x :: y :: ys) (x :: y :: ys).length =
          lineAt (y :: ys) (y :: ys).length := by
        simp [lineAt]
      rw [upTo, endPos, htake, joinN_cons, hline]
      rw [upTo, endPos]
      simp

/-- Running a stream of untouched (passthrough) events from a clean
state succeeds and appends exactly the source span from the cursor to
the last event position, preserving all control fields. -/
theorem run_untouched (events : List Event) (st : FPState)
    (hta : st.in_textarea = false) (hse : st.skip_error = false)
    (hsn : st.skip_next = false)
    (hp : posValid st.lines st.source_pos = true)
    (hch : chainOK st.lines st.source_pos events = true)
    (hunt : ∀ e ∈ events, untouched e = true) :
    ∃ st', run st events = .ok st' ∧
      serializeContent st'.content = serializeContent st.content ++
        spanText st.lines st.source_pos (lastPos st.source_pos events) ∧
      st'.source_pos = lastPos st.source_pos events ∧
      st'.lines = st.lines ∧
      st'.in_textarea = false ∧ st'.skip_error = false ∧ st'.skip_next = false ∧
      st'.use_all_keys = st.use_all_keys ∧
      st'.auto_error_formatter = st.auto_error_formatter ∧
      st'.errors = st.errors ∧ st'.used_errors = st.used_errors ∧
      st'.defaults = st.defaults ∧ st'.used_keys = st.used_keys ∧
      st'.error_class = st.error_class ∧ st'.in_error = st.in_error ∧
      st'.in_select = st.in_select := by
  induction events generalizing st with
  | nil =>
    refine ⟨st, rfl, ?_, rfl, rfl, hta, hse, hsn, rfl, rfl, rfl, rfl, rfl, rfl, rfl, rfl, rfl⟩
    simp [lastPos, spanText, spanChunks]
  | cons e es ih =>
    simp only [chainOK, Bool.and_eq_true] at hch
    obtain ⟨⟨he, hle⟩, hch'⟩ := hch
    have hunt_e : untouched e = true := hunt e (List.mem_cons_self e es)
    have hunt' : ∀ x ∈ es, untouched x = true := fun x hx => hunt x (List.mem_cons_of_mem e hx)
    have hwp : write_pos st e.pos =
        { st with
          content := st.content ++ (spanChunks st.lines st.source_pos e.pos).map Item.txt,
          source_pos := e.pos } := by
      rw [write_pos, if_neg (by rw [hta, hse]; simp), if_neg (by rw [hsn]; simp)]
    have hstep : processEvent st e = .ok
        { st with
          content := st.content ++ (spanChunks st.lines st.source_pos e.pos).map Item.txt,
          source_pos := e.pos } := by
      rw [processEvent_untouched st e hunt_e, hwp]
    obtain ⟨st', hrun', hser, hpos, hlines, hta', hse', hsn', huak, haef, herr,
        huerr, hdef, hukey, hecl, hinerr, hinsel⟩ :=
      ih ({ st with
          content := st.content ++ (spanChunks st.lines st.source_pos e.pos).map Item.txt,
          source_pos := e.pos }) hta hse hsn he hch' hunt'
    dsimp only at hser hpos hlines huak haef herr huerr hdef hukey hecl hinerr hinsel
    have hvl := chainOK_lastPos st.lines e.pos es he hch'
    have hlp : lastPos st.source_pos (e :: es) = lastPos e.pos es := rfl
    refine ⟨st', ?_, ?_, ?_, hlines, hta', hse', hsn', huak, haef, herr, huerr,
      hdef, hukey, hecl, hinerr, hinsel⟩
    · rw [run, List.foldlM_cons, hstep]
      simp only [bind, Except.bind]
      exact hrun'
    · rw [hser, serialize_append, serialize_txt_chunks, hlp, List.append_assoc]
      have hspan := spanText_trans st.lines st.source_pos e.pos (lastPos e.pos es)
        hp he hvl.1 hle hvl.2
      rw [show (spanChunks st.lines st.source_pos e.pos).flatten =
        spanText st.lines st.source_pos e.pos from rfl, hspan]
    · rw [hpos, hlp]
end HtmlFill

namespace HtmlFill
open Val

/-- C1: for a document whose event stream contains no recognized
control tags (`input`, `textarea`, `select`, `option`) and no
directive tags (`form:error`, `form:iferror`), with positions forming
a valid monotone chain ending at the end of the document, `feed`
followed by `close` reproduces the input text byte-for-byte: every
source region is copied exactly, whitespace and line breaks included,
by the line/column cursor copy of `write_pos`. -/
theorem C1_passthrough (defaults errors : PyDict) (error_class : Val)
    (add_attributes : List (Val × List (Str × Val))) (data : Str) (events : List Event)
    (hunt : ∀ e ∈ events, untouched e = true)
    (hch : chainOK (data.splitOn '\n') (1, 0) events = true)
    (hlast : lastPos (1, 0) events = endPos (data.splitOn '\n')) :
    fill defaults errors false error_class add_attributes none data events = .ok data := by
  have hlines : (data.splitOn '\n') ≠ [] := by
    simp only [List.splitOn]
    exact List.splitOnP_ne_nil _ _
  have hpv : posValid (data.splitOn '\n') (1, 0) = true := by
    simp only [posValid, lineAt, Bool.and_eq_true, decide_eq_true_eq]
    refine ⟨⟨Nat.le_refl 1, ?_⟩, Nat.zero_le _⟩
    exact List.length_pos.mpr hlines
  obtain ⟨st', hrun', hser, hpos, hlines', hta', hse', hsn', huak, haef, _⟩ :=
    run_untouched events
      (feedState defaults errors false error_class add_attributes none data)
      rfl rfl rfl hpv hch hunt
  have hcl := chainOK_lastPos (data.splitOn '\n') (1, 0) events hpv hch
  rw [hlast] at hcl
  have hspan : upTo (data.splitOn '\n') (1, 0) ++
      spanText (data.splitOn '\n') (1, 0) (endPos (data.splitOn '\n')) =
      upTo (data.splitOn '\n') (endPos (data.splitOn '\n')) :=
    upTo_append_span _ _ _ hpv hcl.1 hcl.2
  have h0 : upTo (data.splitOn '\n') (1, 0) = [] := rfl
  rw [h0, List.nil_append] at hspan
  have hdata : serializeContent st'.content = data := by
    dsimp only [feedState] at hser
    rw [show serializeContent [] = [] from rfl, List.nil_append] at hser
    rw [hser, hlast, hspan, upTo_endPos _ hlines]
    exact List.intercalate_splitOn data '\n'
  have haef' : st'.auto_error_formatter = none := haef.trans rfl
  have huak' : st'.use_all_keys = false := huak.trans rfl
  rw [fill, hrun']
  show close st' = .ok data
  rw [close_no_auto st' haef']
  rw [if_neg (by rw [huak']; simp), hdata]
end HtmlFill

namespace HtmlFill
open Val

/-- Witness for C1: a concrete two-line document with only passthrough
events is reproduced exactly. -/
theorem C1_passthrough_witness :
    fill [] [] false vnone [] none (s2l "hi\nyo")
      [Event.misc (1, 0), Event.start (1, 1) (s2l "b") [] false,
       Event.stop (2, 1) (s2l "b"), Event.misc (2, 2)] = .ok (s2l "hi\nyo") :=
  C1_passthrough [] [] vnone [] (s2l "hi\nyo")
    [Event.misc (1, 0), Event.start (1, 1) (s2l "b") [] false,
     Event.stop (2, 1) (s2l "b"), Event.misc (2, 2)]
    (by decide) (by decide) (by decide)
end HtmlFill

namespace HtmlFill
open Val

theorem chainOK_append (lines : List Str) (p : Pos) (xs ys : List Event) :
    chainOK lines p (xs ++ ys) =
      (chainOK lines p xs && chainOK lines (lastPos p xs) ys) := by
  induction xs generalizing p with
  | nil => simp [chainOK, lastPos]
  | cons e es ih =>
    show (posValid lines e.pos && posLE p e.pos && chainOK lines e.pos (es ++ ys)) =
      ((posValid lines e.pos && posLE p e.pos && chainOK lines e.pos es)
        && chainOK lines (lastPos e.pos es) ys)
    rw [ih e.pos]
    simp only [Bool.and_assoc]

theorem run_append (st : FPState) (xs ys : List Event) :
    run st (xs ++ ys) = (run st xs).bind (fun s => run s ys) := by
  rw [run, List.foldlM_append processEvent st xs ys]
  cases h : List.foldlM processEvent st xs <;>
    simp [run, bind, Except.bind, h]

theorem run_skip_error (events : List Event) (st : FPState)
    (hse : st.skip_error = true) (hunt : ∀ e ∈ events, untouched e = true) :
    run st events = .ok { st with source_pos := lastPos st.source_pos events } := by
  induction events generalizing st with
  | nil => rfl
  | cons e es ih =>
    have hwp : write_pos st e.pos = { st with source_pos := e.pos } := by
      rw [write_pos, if_pos (by rw [hse]; simp)]
    have hstep : processEvent st e = .ok { st with source_pos := e.pos } := by
      rw [processEvent_untouched st e (hunt e (List.mem_cons_self e es)), hwp]
    rw [run, List.foldlM_cons, hstep]
    simp only [bind, Except.bind]
    exact ih { st with source_pos := e.pos } hse
      (fun x hx => hunt x (List.mem_cons_of_mem e hx))

theorem processEvent_iferror_start (st : FPState) (p : Pos) (attrs : List (Str × Val))
    (se : Bool) :
    processEvent st (Event.start p (s2l "form:iferror") attrs se) =
      handle_iferror (write_pos st p) attrs := by
  rw [processEvent, handle_starttag]
  rw [if_neg (by decide), if_neg (by decide), if_neg (by decide), if_neg (by decide),
    if_neg (by decide), if_pos rfl]

theorem processEvent_iferror_stop (st : FPState) (p : Pos) :
    processEvent st (Event.stop p (s2l "form:iferror")) =
      .ok (handle_end_iferror (write_pos st p)) := by
  rw [processEvent, handle_endtag]
  rw [if_neg (by decide), if_neg (by decide), if_pos rfl]

theorem handle_iferror_spec (st : FPState) (attrs : List (Str × Val))
    (hse : st.skip_error = false)
    (hname : pyTruthy (get_attr attrs (s2l "name") vnone) = true) :
    handle_iferror st attrs = .ok
      { st with
        in_error := get_attr attrs (s2l "name") vnone,
        skip_error := !pyTruthy (dictGetD st.errors
          (get_attr attrs (s2l "name") vnone) vnone),
        skip_next := true } := by
  by_cases herrv : pyTruthy (dictGetD st.errors
      (get_attr attrs (s2l "name") vnone) vnone) = true
  · simp [handle_iferror, hname, herrv, bind, Except.bind, pure, Except.pure]
    rw [hse]
  · rw [Bool.not_eq_true] at herrv
    simp [handle_iferror, hname, herrv, bind, Except.bind, pure, Except.pure]

theorem step_iferror_start (st : FPState) (p0 : Pos) (attrs : List (Str × Val)) (se : Bool)
    (hta : st.in_textarea = false) (hse : st.skip_error = false) (hsn : st.skip_next = false)
    (hname : pyTruthy (get_attr attrs (s2l "name") vnone) = true) :
    processEvent st (Event.start p0 (s2l "form:iferror") attrs se) = .ok
      { st with
        content := st.content ++ (spanChunks st.lines st.source_pos p0).map Item.txt,
        source_pos := p0,
        in_error := get_attr attrs (s2l "name") vnone,
        skip_error := !pyTruthy (dictGetD st.errors
          (get_attr attrs (s2l "name") vnone) vnone),
        skip_next := true } := by
  rw [processEvent_iferror_start]
  have hwp : write_pos st p0 = { st with
      content := st.content ++ (spanChunks st.lines st.source_pos p0).map Item.txt,
      source_pos := p0 } := by
    rw [write_pos, if_neg (by rw [hta, hse]; simp), if_neg (by rw [hsn]; simp)]
  rw [hwp]
  exact (handle_iferror_spec
    { st with
      content := st.content ++ (spanChunks st.lines st.source_pos p0).map Item.txt,
      source_pos := p0 } attrs hse hname).trans rfl
end HtmlFill

namespace HtmlFill
open Val

theorem run_singleton (st : FPState) (e : Event) : run st [e] = processEvent st e := by
  simp only [run, List.foldlM_cons, List.foldlM_nil]
  cases h : processEvent st e <;> simp [bind, Except.bind, h, pure, Except.pure]

/-- C6: a `form:iferror` directive whose key has no error in `errors`
suppresses everything from its open tag through its close tag: none of
the inner content appears in the output; when an error is present for
the key, the inner content is emitted verbatim; in both cases the
directive open and close tags themselves (the spans from the open-tag
position to the first inner event and from the close-tag position to
the following event) never appear in the output. -/
theorem C6_iferror_suppression (st : FPState) (attrs : List (Str × Val))
    (p0 p1 pe pf : Pos) (inner : List Event) (se : Bool)
    (hta : st.in_textarea = false) (hse : st.skip_error = false)
    (hsn : st.skip_next = false)
    (hname : pyTruthy (get_attr attrs (s2l "name") vnone) = true)
    (hch : chainOK st.lines st.source_pos
      (Event.start p0 (s2l "form:iferror") attrs se :: Event.misc p1 :: inner
        ++ [Event.stop pe (s2l "form:iferror"), Event.misc pf]) = true)
    (hunt : ∀ e ∈ inner, untouched e = true) :
    ∃ st', run st (Event.start p0 (s2l "form:iferror") attrs se :: Event.misc p1 :: inner
        ++ [Event.stop pe (s2l "form:iferror"), Event.misc pf]) = .ok st' ∧
      serializeContent st'.content = serializeContent st.content ++
        spanText st.lines st.source_pos p0 ++
        (if pyTruthy (dictGetD st.errors (get_attr attrs (s2l "name") vnone) vnone)
          then spanText st.lines p1 pe else []) ∧
      st'.source_pos = pf ∧ st'.in_error = vnone ∧ st'.skip_error = false ∧
      st'.skip_next = false ∧ st'.in_textarea = false := by
  rw [List.cons_append, List.cons_append] at hch
  simp only [chainOK, Bool.and_eq_true, Event.pos] at hch
  obtain ⟨⟨hv0, hle0⟩, ⟨hv1, hle1⟩, hchrest⟩ := hch
  rw [chainOK_append, Bool.and_eq_true] at hchrest
  obtain ⟨hchin, hchtail⟩ := hchrest
  simp only [chainOK, Bool.and_eq_true, Bool.and_true, Event.pos] at hchtail
  obtain ⟨⟨hve, hlee⟩, hvf, hlef⟩ := hchtail
  have hlast_in := chainOK_lastPos st.lines p1 inner hv1 hchin
  have hstep1 := step_iferror_start st p0 attrs se hta hse hsn hname
  have hsplit : (Event.start p0 (s2l "form:iferror") attrs se :: Event.misc p1 :: inner
      ++ [Event.stop pe (s2l "form:iferror"), Event.misc pf]) =
    [Event.start p0 (s2l "form:iferror") attrs se] ++ ([Event.misc p1] ++ (inner ++
      ([Event.stop pe (s2l "form:iferror")] ++ [Event.misc pf]))) := by simp
  by_cases herr : pyTruthy (dictGetD st.errors
      (get_attr attrs (s2l "name") vnone) vnone) = true
  · -- an error is present: inner content is emitted verbatim
    rw [herr, Bool.not_true] at hstep1
    have hstep2 : processEvent
        { st with
          content := st.content ++ (spanChunks st.lines st.source_pos p0).map Item.txt,
          source_pos := p0,
          in_error := get_attr attrs (s2l "name") vnone,
          skip_error := false, skip_next := true } (Event.misc p1) = .ok
        { st with
          content := st.content ++ (spanChunks st.lines st.source_pos p0).map Item.txt,
          source_pos := p1,
          in_error := get_attr attrs (s2l "name") vnone,
          skip_error := false, skip_next := false } := by
      show Except.ok (write_pos _ p1) = _
      rw [write_pos, if_neg (by simp [hta]), if_pos rfl]
    obtain ⟨st4, hrun4, hser4, hpos4, hlines4, hta4, hse4, hsn4, _, _, _, _, _, _, _,
        hinerr4, _⟩ :=
      run_untouched inner
        { st with
          content := st.content ++ (spanChunks st.lines st.source_pos p0).map Item.txt,
          source_pos := p1,
          in_error := get_attr attrs (s2l "name") vnone,
          skip_error := false, skip_next := false }
        hta rfl rfl hv1 hchin hunt
    dsimp only at hser4 hpos4 hlines4
    have hwp4 : write_pos st4 pe = { st4 with
        content := st4.content ++ (spanChunks st4.lines st4.source_pos pe).map Item.txt,
        source_pos := pe } := by
      rw [write_pos, if_neg (by simp [hta4, hse4]), if_neg (by simp [hsn4])]
    have hstep4 : processEvent st4 (Event.stop pe (s2l "form:iferror")) = .ok
        { st4 with
          content := st4.content ++ (spanChunks st4.lines st4.source_pos pe).map Item.txt,
          source_pos := pe, in_error := vnone, skip_error := false, skip_next := true } := by
      rw [processEvent_iferror_stop, hwp4]
      rfl
    have hstep5 : processEvent
        { st4 with
          content := st4.content ++ (spanChunks st4.lines st4.source_pos pe).map Item.txt,
          source_pos := pe, in_error := vnone, skip_error := false, skip_next := true }
        (Event.misc pf) = .ok
        { st4 with
          content := st4.content ++ (spanChunks st4.lines st4.source_pos pe).map Item.txt,
          source_pos := pf, in_error := vnone, skip_error := false, skip_next := false } := by
      show Except.ok (write_pos _ pf) = _
      rw [write_pos, if_neg (by simp [hta4]), if_pos rfl]
    refine ⟨{ st4 with
        content := st4.content ++ (spanChunks st4.lines st4.source_pos pe).map Item.txt,
        source_pos := pf, in_error := vnone, skip_error := false, skip_next := false },
      ?_, ?_, rfl, rfl, rfl, rfl, hta4⟩
    · rw [hsplit, run_append, run_singleton, hstep1]
      simp only [Except.bind]
      rw [run_append, run_singleton, hstep2]
      simp only [Except.bind]
      rw [run_append, hrun4]
      simp only [Except.bind]
      rw [run_append, run_singleton, hstep4]
      simp only [Except.bind]
      rw [run_singleton, hstep5]
    · rw [if_pos herr]
      show serializeContent (st4.content ++
        (spanChunks st4.lines st4.source_pos pe).map Item.txt) = _
      rw [serialize_append, serialize_txt_chunks, hser4, serialize_append,
        serialize_txt_chunks, hpos4, hlines4]
      rw [show (spanChunks st.lines st.source_pos p0).flatten =
        spanText st.lines st.source_pos p0 from rfl]
      rw [show (spanChunks st.lines (lastPos p1 inner) pe).flatten =
        spanText st.lines (lastPos p1 inner) pe from rfl]
      rw [List.append_assoc (serializeContent st.content ++
        spanText st.lines st.source_pos p0)]
      rw [spanText_trans st.lines p1 (lastPos p1 inner) pe hv1 hlast_in.1 hve
        hlast_in.2 hlee]
  · -- no error for the key: everything through the close tag is suppressed
    rw [Bool.not_eq_true] at herr
    rw [herr, Bool.not_false] at hstep1
    have hstep2 : processEvent
        { st with
          content := st.content ++ (spanChunks st.lines st.source_pos p0).map Item.txt,
          source_pos := p0,
          in_error := get_attr attrs (s2l "name") vnone,
          skip_error := true, skip_next := true } (Event.misc p1) = .ok
        { st with
          content := st.content ++ (spanChunks st.lines st.source_pos p0).map Item.txt,
          source_pos := p1,
          in_error := get_attr attrs (s2l "name") vnone,
          skip_error := true, skip_next := true } := by
      show Except.ok (write_pos _ p1) = _
      rw [write_pos, if_pos (by simp)]
    have hrun3 := run_skip_error inner
      { st with
        content := st.content ++ (spanChunks st.lines st.source_pos p0).map Item.txt,
        source_pos := p1,
        in_error := get_attr attrs (s2l "name") vnone,
        skip_error := true, skip_next := true }
      rfl hunt
    dsimp only at hrun3
    have hstep4 : processEvent
        { st with
          content := st.content ++ (spanChunks st.lines st.source_pos p0).map Item.txt,
          source_pos := lastPos p1 inner,
          in_error := get_attr attrs (s2l "name") vnone,
          skip_error := true, skip_next := true }
        (Event.stop pe (s2l "form:iferror")) = .ok
        { st with
          content := st.content ++ (spanChunks st.lines st.source_pos p0).map Item.txt,
          source_pos := pe, in_error := vnone, skip_error := false,
          skip_next := true } := by
      rw [processEvent_iferror_stop, write_pos, if_pos (by simp)]
      rfl
    have hstep5 : processEvent
        { st with
          content := st.content ++ (spanChunks st.lines st.source_pos p0).map Item.txt,
          source_pos := pe, in_error := vnone, skip_error := false, skip_next := true }
        (Event.misc pf) = .ok
        { st with
          content := st.content ++ (spanChunks st.lines st.source_pos p0).map Item.txt,
          source_pos := pf, in_error := vnone, skip_error := false,
          skip_next := false } := by
      show Except.ok (write_pos _ pf) = _
      rw [write_pos, if_neg (by simp [hta]), if_pos rfl]
    refine ⟨{ st with
        content := st.content ++ (spanChunks st.lines st.source_pos p0).map Item.txt,
        source_pos := pf, in_error := vnone, skip_error := false, skip_next := false },
      ?_, ?_, rfl, rfl, rfl, rfl, hta⟩
    · rw [hsplit, run_append, run_singleton, hstep1]
      simp only [Except.bind]
      rw [run_append, run_singleton, hstep2]
      simp only [Except.bind]
      rw [run_append, hrun3]
      simp only [Except.bind]
      rw [run_append, run_singleton, hstep4]
      simp only [Except.bind]
      rw [run_singleton, hstep5]
    · rw [if_neg (by rw [herr]; exact Bool.false_ne_true)]
      show serializeContent (st.content ++
        (spanChunks st.lines st.source_pos p0).map Item.txt) = _
      rw [serialize_append, serialize_txt_chunks, List.append_nil]
      rfl
end HtmlFill

namespace HtmlFill
open Val

/-- Witness for C6: in a concrete document with an error present for
the key, the inner content of the `form:iferror` region is emitted and
neither directive tag is. -/
theorem C6_iferror_suppression_witness :
    ∃ st', run wC6st wC6events = .ok st' ∧
      serializeContent st'.content = serializeContent wC6st.content ++
        spanText wC6st.lines wC6st.source_pos (1, 1) ++
        (if pyTruthy (dictGetD wC6st.errors
            (get_attr [(s2l "name", Val.vstr (s2l "x"))] (s2l "name") vnone) vnone)
          then spanText wC6st.lines (1, 24) (1, 25) else []) ∧
      st'.source_pos = (1, 40) ∧ st'.in_error = vnone ∧ st'.skip_error = false ∧
      st'.skip_next = false ∧ st'.in_textarea = false :=
  C6_iferror_suppression wC6st [(s2l "name", Val.vstr (s2l "x"))] (1, 1) (1, 24) (1, 25)
    (1, 40) [] false rfl rfl rfl (by decide) (by decide) (by decide)
end HtmlFill
